import Mathlib

set_option maxHeartbeats 1000000

/-
Formal model of the fluxio-parser Pass state compiler core: the Pass
state (src/fluxio_parser/states/pass_.py) and the resource decorator
registry (src/fluxio_parser/resource_decorators.py), together with the
graph container and the shaping driver they run against.  Repository
modules that are referenced but not part of the excerpted source
(constants.py, util.py, exceptions.py, states/base.py, the visitor that
drives shaping) are modelled from the spec and carry a doc comment
saying so.
-/

/-- JSON values: the result domain of literal evaluation followed by
JSON serialization. -/
inductive JsonValue : Type
  | null : JsonValue
  | bool (b : Bool) : JsonValue
  | num (n : Int) : JsonValue
  | str (s : String) : JsonValue
  | arr (xs : List JsonValue) : JsonValue
  | obj (fields : List (String × JsonValue)) : JsonValue

/-- Shape of a Python expression as seen by ast.literal_eval followed by
json.dumps: a literal whose value survives the strict JSON round trip, a
literal whose value is not JSON serializable (json.dumps raises), or a
non literal expression (ast.literal_eval raises). -/
inductive PyExpr : Type
  | jsonLit (v : JsonValue) : PyExpr
  | badLit : PyExpr
  | nonLit : PyExpr

/-- Statement shapes relevant to PassState: the bare no-op marker
(ast.Pass), an assignment data[k1]...[kn] = value (ast.Assign, with the
target keys listed in order), a statement carrying a value attribute
that holds a call whose first argument is modelled (for example
data.update(...)), and any other statement without a value attribute. -/
inductive AstNode : Type
  | passStmt : AstNode
  | assign (targetKeys : List String) (value : PyExpr) : AstNode
  | exprCall (arg0 : PyExpr) : AstNode
  | other : AstNode

/-- Models ast.literal_eval applied to the printed source of an
expression followed by json.dumps: returns the value exactly when the
expression is a JSON serializable literal. -/
def literalEvalJson : PyExpr → Option JsonValue
  | .jsonLit v => some v
  | .badLit => none
  | .nonLit => none

/-- Embedding of PassState._parse_result (states/pass_.py): for an
assignment the right hand side is evaluated; for a statement with a
value attribute the first call argument is evaluated; otherwise the
source string is the empty dict.  Any evaluation or serialization
failure raises UnsupportedOperation carrying the offending node. -/
def PassState.parse_result (node : AstNode) : Except (String × AstNode) JsonValue :=
  let sourceExpr : PyExpr :=
    match node with
    | .assign _ value => value
    | .exprCall arg0 => arg0
    | _ => .jsonLit (.obj [])
  match literalEvalJson sourceExpr with
  | some result => .ok result
  | none =>
      .error ("Only JSON-serializeable values can be used to update the data object", node)

/-- Modelled from the spec: RESERVED_INPUT_DATA_KEYS (constants.py, not
under src/) is the fixed denylist of structural keys the runtime needs;
the spec names Result and ResultPath as the reserved control keys. -/
def RESERVED_INPUT_DATA_KEYS : List String := ["Result", "ResultPath"]

/-- Bool test that the second list is a leading segment of the first. -/
def listStartsWith : List Char → List Char → Bool
  | _, [] => true
  | [], _ :: _ => false
  | a :: as, b :: bs => a == b && listStartsWith as bs

/-- Bool test that pat occurs contiguously inside the second list. -/
def listContainsSeg (pat : List Char) : List Char → Bool
  | [] => listStartsWith [] pat
  | a :: rest => listStartsWith (a :: rest) pat || listContainsSeg pat rest

/-- ASCII case folding of one character, modelling the IGNORECASE flag
of the regular expression search. -/
def lowerChar (c : Char) : Char :=
  if c.isUpper then Char.ofNat (c.toNat + 32) else c

/-- ASCII case folding of a character list. -/
def lowerList (l : List Char) : List Char := l.map lowerChar

/-- Modelled from the spec: INVALID_RESULT_PATH_PATTERN (constants.py,
not under src/): a case insensitive regular expression search on the
rendered result path for any reserved key appearing as a bracketed
segment. -/
def invalidResultPathSearch (result_path : String) : Bool :=
  RESERVED_INPUT_DATA_KEYS.any (fun key =>
    listContainsSeg (lowerList ("[\x27" ++ key ++ "\x27]").toList)
      (lowerList result_path.toList))

/-- Modelled from the spec: util.convert_input_data_ref (not under src/)
renders an input data reference data[k1]...[kn] as the result path
string given in the spec example, the dollar root followed by one
bracketed quoted segment per key. -/
def convert_input_data_ref (targetKeys : List String) : String :=
  "$" ++ String.join (targetKeys.map (fun key => "[\x27" ++ key ++ "\x27]"))

/-- Modelled from the spec: exceptions.assert_supported_operation (not
under src/) raises UnsupportedOperation carrying the message and the
offending node when the condition is false. -/
def assert_supported_operation (cond : Bool) (message : String) (node : AstNode) :
    Except (String × AstNode) Unit :=
  if cond then .ok () else .error (message, node)

/-- Embedding of PassState._parse_result_path (states/pass_.py): for an
assignment, render the target as a result path and reject it when the
reserved key pattern matches; for any other node the result path is the
data root. -/
def PassState.parse_result_path (node : AstNode) : Except (String × AstNode) String :=
  match node with
  | .assign targetKeys _ => do
      let result_path := convert_input_data_ref targetKeys
      let _ ← assert_supported_operation (!(invalidResultPathSearch result_path))
          ("Task result path is invalid. Check that it does not contain reserved keys: "
            ++ String.intercalate ", " RESERVED_INPUT_DATA_KEYS) node
      .ok result_path
  | _ => .ok ("$")

/-- Modelled from the spec: State._set_end_or_next (states/base.py, not
under src/): a node with zero outgoing edges is terminal and gets End
true, otherwise Next is set to the derived successor name. -/
def setEndOrNext (outCount : Nat) (succName : String) (data : List (String × JsonValue)) :
    List (String × JsonValue) :=
  if outCount == 0 then data ++ [("End", JsonValue.bool true)]
  else data ++ [("Next", JsonValue.str succName)]

/-- Embedding of PassState.to_dict (states/pass_.py): start from the
Type key, add Result and ResultPath unless the originating statement is
the bare no-op marker, then set the End or Next linkage.  outCount is
the number of outgoing edges of the node and succName the derived
successor name. -/
def PassState.to_dict (node : AstNode) (outCount : Nat) (succName : String) :
    Except (String × AstNode) (List (String × JsonValue)) :=
  match node with
  | .passStmt => .ok (setEndOrNext outCount succName [("Type", JsonValue.str "Pass")])
  | _ => do
      let result ← PassState.parse_result node
      let result_path ← PassState.parse_result_path node
      .ok (setEndOrNext outCount succName
        ([("Type", JsonValue.str "Pass"), ("Result", result),
          ("ResultPath", JsonValue.str result_path)]))

/-- Shapes of keyword value nodes in decorator calls: an ast.Name
holding a boolean literal, a string literal, a dict literal, or any
other expression. -/
inductive ValueNode : Type
  | name (b : Bool) : ValueNode
  | strLit (s : String) : ValueNode
  | dictLit (entries : List (String × JsonValue)) : ValueNode
  | otherNode : ValueNode

/-- Modelled from the spec: the string entry of GET_VALUE_MAP (util.py,
not under src/): accept exactly a string literal node. -/
def getValueString : ValueNode → Except String String
  | .strLit s => .ok s
  | _ => .error ("Value must be a string literal")

/-- Modelled from the spec: the boolean entry of GET_VALUE_MAP. -/
def getValueBoolean : ValueNode → Except String Bool
  | .name b => .ok b
  | _ => .error ("Value must be a boolean literal")

/-- Modelled from the spec: the dict entry of GET_VALUE_MAP. -/
def getValueDict : ValueNode → Except String (List (String × JsonValue))
  | .dictLit entries => .ok entries
  | _ => .error ("Value must be a dict literal")

/-- Modelled from the spec: exceptions.assert_supported_operation as
used in the decorator layer, carrying the message. -/
def assert_supported_operation_msg (cond : Bool) (message : String) : Except String Unit :=
  if cond then .ok () else .error (message)

/-- Embedding of get_subscribe_status (resource_decorators.py): extract
a string from the node, then require membership in the allowed status
set, failing with a message that names the allowed set and the provided
value. -/
def get_subscribe_status (node : ValueNode) : Except String String := do
  let value ← getValueString node
  let _ ← assert_supported_operation_msg (value == "success" || value == "failure")
      ("Status must be one of success|failure. Provided: " ++ value)
  .ok value

/-- Tags for the expected syntactic kind of an option value (the
value_type field of CallableOption). -/
inductive ValueTypeTag : Type
  | nameT : ValueTypeTag
  | strT : ValueTypeTag
  | dictT : ValueTypeTag

/-- Modelled from the spec: util.CallableOption (not under src/):
expected node kind, its human readable label, the extractor, and the
default used when the option is omitted (none when the option has no
default). -/
structure CallableOption : Type where
  value_type : ValueTypeTag
  value_type_label : String
  get_value : ValueNode → Except String JsonValue
  default_value : Option JsonValue := none

/-- Modelled from the spec: one decorator schema row: optional maximum
application count and the option table. -/
structure DecoratorSchema : Type where
  max_count : Option Nat := none
  options : List (String × CallableOption)

/-- Embedding of RESOURCE_DECORATOR_MAP (resource_decorators.py). -/
def RESOURCE_DECORATOR_MAP : List (String × DecoratorSchema) := [
  ("export",
    { max_count := some 1,
      options := [
        ("enabled",
          { value_type := ValueTypeTag.nameT, value_type_label := "boolean",
            get_value := fun node => (getValueBoolean node).map JsonValue.bool,
            default_value := some (JsonValue.bool true) })] }),
  ("schedule",
    { max_count := some 1,
      options := [
        ("expression",
          { value_type := ValueTypeTag.strT, value_type_label := "string",
            get_value := fun node => (getValueString node).map JsonValue.str,
            default_value := some JsonValue.null }),
        ("input_data",
          { value_type := ValueTypeTag.dictT, value_type_label := "dict",
            get_value := fun node => (getValueDict node).map JsonValue.obj,
            default_value := some JsonValue.null })] }),
  ("subscribe",
    { options := [
        ("topic_arn_import_value",
          { value_type := ValueTypeTag.strT, value_type_label := "string",
            get_value := fun node => (getValueString node).map JsonValue.str }),
        ("project",
          { value_type := ValueTypeTag.strT, value_type_label := "string",
            get_value := fun node => (getValueString node).map JsonValue.str }),
        ("state_machine",
          { value_type := ValueTypeTag.strT, value_type_label := "string",
            get_value := fun node => (getValueString node).map JsonValue.str,
            default_value := some (JsonValue.str "main") }),
        ("status",
          { value_type := ValueTypeTag.strT, value_type_label := "string",
            get_value := fun node => (get_subscribe_status node).map JsonValue.str,
            default_value := some (JsonValue.str "success") })] })]

/-- Modelled from the spec: the validated outcome of one decorator
application. -/
structure DecoratorEffect : Type where
  decorator_name : String
  values : List (String × JsonValue)

/-- Modelled from the spec: look up a decorator schema by name in the
static registry. -/
def lookupSchema (name : String) : Option DecoratorSchema :=
  (RESOURCE_DECORATOR_MAP.find? (fun row => row.1 == name)).map (fun row => row.2)

/-- Modelled from the spec: the value kind check of step 4 of the
validator contract. -/
def valueKindMatches : ValueTypeTag → ValueNode → Bool
  | .nameT, .name _ => true
  | .strT, .strLit _ => true
  | .dictT, .dictLit _ => true
  | _, _ => false

/-- Modelled from the spec: validate one decorator application (steps 3,
4, 5 and 6 of the validator contract): reject unknown option names,
check the value kind, run the extractor, then fill omitted options from
their defaults; an option without a default that is not supplied is
absent from the result. -/
def validateApplication (name : String) (schema : DecoratorSchema)
    (kwargs : List (String × ValueNode)) : Except String DecoratorEffect := do
  let supplied ← kwargs.mapM (fun kw =>
    match schema.options.find? (fun row => row.1 == kw.1) with
    | none => .error ("Unknown option " ++ kw.1 ++ " for decorator " ++ name)
    | some row =>
        if valueKindMatches row.2.value_type kw.2 then
          (row.2.get_value kw.2).map (fun v => (kw.1, v))
        else
          .error ("Option " ++ kw.1 ++ " of decorator " ++ name ++ " must be a "
            ++ row.2.value_type_label))
  let values := schema.options.foldl (fun acc row =>
    match supplied.find? (fun s => s.1 == row.1) with
    | some s => acc ++ [s]
    | none =>
        match row.2.default_value with
        | some d => acc ++ [(row.1, d)]
        | none => acc) []
  .ok { decorator_name := name, values := values }

/-- Modelled from the spec: count earlier applications of a decorator
name. -/
def countApplications (name : String) (seen : List String) : Nat :=
  (seen.filter (fun s => s == name)).length

/-- Modelled from the spec: true when the seen count has reached the
maximum application count. -/
def overMaxCount : Option Nat → Nat → Bool
  | none, _ => false
  | some mc, c => decide (mc ≤ c)

/-- Modelled from the spec: the decorator validator walk (steps 1 and 2
of the validator contract) over the ordered decorator applications of
one function. -/
def validateDecoratorsGo :
    List (String × List (String × ValueNode)) → List String →
    Except String (List DecoratorEffect)
  | [], _ => .ok []
  | (name, kwargs) :: rest, seen =>
    match lookupSchema name with
    | none => .error ("Unknown resource decorator: " ++ name)
    | some schema =>
        if overMaxCount schema.max_count (countApplications name seen) then
          .error ("Decorator " ++ name ++ " was applied more times than its max count")
        else do
          let eff ← validateApplication name schema kwargs
          let effs ← validateDecoratorsGo rest (seen ++ [name])
          .ok (eff :: effs)

/-- Modelled from the spec: validate the decorator applications of one
function. -/
def validateDecorators (apps : List (String × List (String × ValueNode))) :
    Except String (List DecoratorEffect) :=
  validateDecoratorsGo apps []

/-- Directed state graph with attribute carrying edges.  Modelled from
the spec data model and the networkx DiGraph API that PassState.shape
calls: a node list plus an edge list with at most one edge per ordered
node pair. -/
structure StateGraph (α : Type) : Type where
  nodes : List Nat
  edges : List (Nat × Nat × α)

variable {α : Type}

def StateGraph.outEdges (g : StateGraph α) (u : Nat) : List (Nat × Nat × α) :=
  g.edges.filter (fun e => e.1 == u)

def StateGraph.inEdges (g : StateGraph α) (u : Nat) : List (Nat × Nat × α) :=
  g.edges.filter (fun e => e.2.1 == u)

def StateGraph.successors (g : StateGraph α) (u : Nat) : List Nat :=
  (g.outEdges u).map (fun e => e.2.1)

def StateGraph.hasEdge (g : StateGraph α) (u v : Nat) : Bool :=
  g.edges.any (fun e => e.1 == u && e.2.1 == v)

/-- networkx add_edge: missing endpoints are inserted as nodes; an
existing edge gets its stored attributes updated (with opaque attributes
this update is modelled as replacement; every theorem below either
proves the edge absent or uses only the endpoints of the result); a new
edge is appended. -/
def StateGraph.addEdge (g : StateGraph α) (u v : Nat) (a : α) : StateGraph α :=
  let nodes1 := if g.nodes.contains u then g.nodes else g.nodes ++ [u]
  let nodes2 := if nodes1.contains v then nodes1 else nodes1 ++ [v]
  if g.hasEdge u v then
    { nodes := nodes2,
      edges := g.edges.map (fun e => if e.1 == u && e.2.1 == v then (u, v, a) else e) }
  else
    { nodes := nodes2, edges := g.edges ++ [(u, v, a)] }

/-- networkx remove_edge: removing an absent edge raises NetworkXError. -/
def StateGraph.removeEdge (g : StateGraph α) (u v : Nat) :
    Except String (StateGraph α) :=
  if g.hasEdge u v then
    .ok { nodes := g.nodes,
          edges := g.edges.filter (fun e => !(e.1 == u && e.2.1 == v)) }
  else
    .error ("The edge " ++ toString u ++ "-" ++ toString v ++ " not in graph.")

/-- networkx remove_node: drop the node and every incident edge. -/
def StateGraph.removeNode (g : StateGraph α) (u : Nat) : StateGraph α :=
  { nodes := g.nodes.filter (fun x => x != u),
    edges := g.edges.filter (fun e => e.1 != u && e.2.1 != u) }

/-- The edge rewiring loop of PassState.shape: for every successor, walk
a snapshot of the incoming edges of the node, record each incoming edge
for later removal and point its source at the successor carrying the
incoming edge attributes. -/
def spliceAll (g : StateGraph α) (self : Nat) : StateGraph α × List (Nat × Nat) :=
  (g.successors self).foldl
    (fun st next =>
      (st.1.inEdges self).foldl
        (fun acc e => (acc.1.addEdge e.1 next e.2.2, acc.2 ++ [(e.1, e.2.1)]))
        st)
    (g, [])

/-- The removal loop of PassState.shape over the recorded edge list. -/
def removeEdgeList (g : StateGraph α) (pairs : List (Nat × Nat)) :
    Except String (StateGraph α) :=
  pairs.foldlM (fun h uv => h.removeEdge uv.1 uv.2) g

/-- Graph component of the inner rewiring loop: point the source of each
listed incoming edge at the given successor, carrying the attributes of
the incoming edge. -/
def foldAddG (next : Nat) (ins : List (Nat × Nat × α)) (h : StateGraph α) : StateGraph α :=
  ins.foldl (fun h2 e => h2.addEdge e.1 next e.2.2) h

/-- Graph component of one successor iteration of the rewiring loop. -/
def spliceG (self next : Nat) (h : StateGraph α) : StateGraph α :=
  foldAddG next (h.inEdges self) h

/-- Embedding of PassState.shape (states/pass_.py).  selfIsPassStmt is
the isinstance check of the originating statement against ast.Pass, and
the edges checked for emptiness are the outgoing edges of the node (the
edges property of the base State class, states/base.py, modelled from
the spec).  The method returns the graph unchanged unless the statement
is the bare no-op marker with at least one outgoing edge; otherwise it
splices the neighbors, removes the recorded edges and removes the
node. -/
def PassState.shape (g : StateGraph α) (self : Nat) (selfIsPassStmt : Bool) :
    Except String (StateGraph α) :=
  if !selfIsPassStmt || (g.outEdges self).isEmpty then .ok g
  else
    let res := spliceAll g self
    match removeEdgeList res.1 res.2 with
    | .ok g2 => .ok (g2.removeNode self)
    | .error msg => .error msg

/-- Modelled from the spec: the graph shaping driver (not under src/)
applies the shape method once to every node of the raw graph; isPass
tells whether the originating statement of a node is the bare no-op
marker (for every other node the Pass elision step is a no-op). -/
def foldShape (isPass : Nat → Bool) (ns : List Nat) (g : StateGraph α) :
    Except String (StateGraph α) :=
  ns.foldlM (fun h n => PassState.shape h n (isPass n)) g

/-- Modelled from the spec: one complete shaping pass over the nodes of
the graph. -/
def runShapingPass (g : StateGraph α) (isPass : Nat → Bool) :
    Except String (StateGraph α) :=
  foldShape isPass g.nodes g

/-- Edges linking consecutive elements of a node list, all carrying the
same attribute. -/
def linkEdges (m : α) : Nat → List Nat → List (Nat × Nat × α)
  | _, [] => []
  | x, y :: rest => (x, y, m) :: linkEdges m y rest

/-- A graph holding a chain of pass placeholder nodes between the
retained nodes A and B: the edge out of A carries attribute a, the inner
chain edges carry attribute m. -/
def chainGraph (A B : Nat) (ps : List Nat) (a m : α) : StateGraph α :=
  match ps with
  | [] => { nodes := [A, B], edges := [(A, B, a)] }
  | p :: t =>
      { nodes := A :: (p :: t) ++ [B],
        edges := (A, p, a) :: linkEdges m p (t ++ [B]) }

/-- The intermediate shape of the chain graph after splicing a prefix of
the pass nodes: the pending chain edges followed by the rewired edge out
of A. -/
def midGraph (A B : Nat) (ps : List Nat) (a m : α) : StateGraph α :=
  match ps with
  | [] => { nodes := [A, B], edges := [(A, B, a)] }
  | p :: t =>
      { nodes := A :: (p :: t) ++ [B],
        edges := linkEdges m p (t ++ [B]) ++ [(A, p, a)] }

/-- Invariant: no edge leaves node p. -/
def noSrc (g : StateGraph α) (p : Nat) : Prop := ∀ e ∈ g.edges, e.1 ≠ p

/-- Invariant: node p is absent and no edge touches it. -/
def noTouch (g : StateGraph α) (p : Nat) : Prop :=
  p ∉ g.nodes ∧ ∀ e ∈ g.edges, e.1 ≠ p ∧ e.2.1 ≠ p

/-- Invariant: every edge endpoint is a node of the graph. -/
def wellFormed (g : StateGraph α) : Prop :=
  ∀ e ∈ g.edges, e.1 ∈ g.nodes ∧ e.2.1 ∈ g.nodes

/-- Membership in the outgoing edge list. -/
theorem StateGraph.mem_outEdges {g : StateGraph α} {u : Nat} {e : Nat × Nat × α} :
    e ∈ g.outEdges u ↔ e ∈ g.edges ∧ e.1 = u := by
  simp [StateGraph.outEdges, List.mem_filter]

/-- Membership in the incoming edge list. -/
theorem StateGraph.mem_inEdges {g : StateGraph α} {u : Nat} {e : Nat × Nat × α} :
    e ∈ g.inEdges u ↔ e ∈ g.edges ∧ e.2.1 = u := by
  simp [StateGraph.inEdges, List.mem_filter]

/-- The outgoing edge list is empty exactly when no edge leaves u. -/
theorem StateGraph.outEdges_eq_nil_iff {g : StateGraph α} {u : Nat} :
    g.outEdges u = [] ↔ ∀ e ∈ g.edges, e.1 ≠ u := by
  simp [StateGraph.outEdges, List.filter_eq_nil_iff]

/-- Characterization of the hasEdge test. -/
theorem StateGraph.hasEdge_iff {g : StateGraph α} {u v : Nat} :
    g.hasEdge u v = true ↔ ∃ e ∈ g.edges, e.1 = u ∧ e.2.1 = v := by
  simp [StateGraph.hasEdge, List.any_eq_true]

/-- The contains test on node lists agrees with membership. -/
theorem contains_iff_mem_nodes {l : List Nat} {x : Nat} :
    l.contains x = true ↔ x ∈ l := by
  simp [List.contains, List.elem_iff]

/-- The added edge is present after addEdge. -/
theorem StateGraph.addEdge_mem_self (g : StateGraph α) (u v : Nat) (a : α) :
    (u, v, a) ∈ (g.addEdge u v a).edges := by
  unfold StateGraph.addEdge
  cases hh : g.hasEdge u v with
  | true =>
      simp only [hh, if_true]
      rcases StateGraph.hasEdge_iff.mp hh with ⟨e, he, h1, h2⟩
      exact List.mem_map.mpr ⟨e, he, by simp [h1, h2]⟩
  | false => simp [hh]

/-- An edge on a different ordered pair survives addEdge unchanged. -/
theorem StateGraph.addEdge_mem_keep {g : StateGraph α} {e : Nat × Nat × α} (u v : Nat) (a : α)
    (he : e ∈ g.edges) (hne : ¬(e.1 = u ∧ e.2.1 = v)) : e ∈ (g.addEdge u v a).edges := by
  unfold StateGraph.addEdge
  cases hh : g.hasEdge u v with
  | true =>
      simp only [hh, if_true]
      refine List.mem_map.mpr ⟨e, he, ?_⟩
      have : (e.1 == u && e.2.1 == v) = false := by
        rcases Decidable.em (e.1 = u) with h1 | h1
        · rcases Decidable.em (e.2.1 = v) with h2 | h2
          · exact absurd ⟨h1, h2⟩ hne
          · simp [h2]
        · simp [h1]
      simp [this]
  | false => simp [hh, List.mem_append, he]

/-- Every edge after addEdge is an old edge or sits on the added pair. -/
theorem StateGraph.addEdge_mem_elim {g : StateGraph α} {e : Nat × Nat × α} {u v : Nat} {a : α}
    (he : e ∈ (g.addEdge u v a).edges) : e ∈ g.edges ∨ (e.1 = u ∧ e.2.1 = v) := by
  unfold StateGraph.addEdge at he
  cases hh : g.hasEdge u v with
  | true =>
      rw [hh] at he
      simp only [if_true] at he
      rcases List.mem_map.mp he with ⟨f, hf, hfe⟩
      by_cases hc : (f.1 == u && f.2.1 == v) = true
      · rw [if_pos hc] at hfe
        right
        rw [← hfe]
        exact ⟨rfl, rfl⟩
      · rw [if_neg hc] at hfe
        left
        rw [← hfe]
        exact hf
  | false =>
      rw [hh] at he
      simp only [Bool.false_eq_true, if_false] at he
      rcases List.mem_append.mp he with h | h
      · exact Or.inl h
      · right
        rcases List.mem_singleton.mp h with rfl
        exact ⟨rfl, rfl⟩

/-- Old nodes survive addEdge. -/
theorem StateGraph.addEdge_nodes_keep {g : StateGraph α} {x : Nat} (u v : Nat) (a : α)
    (hx : x ∈ g.nodes) : x ∈ (g.addEdge u v a).nodes := by
  unfold StateGraph.addEdge
  cases hh : g.hasEdge u v <;>
    simp only [hh, if_true, Bool.false_eq_true, if_false] <;>
    split <;> try split
  all_goals simp [List.mem_append, hx]

/-- Every node after addEdge is an old node or one of the endpoints. -/
theorem StateGraph.addEdge_nodes_elim {g : StateGraph α} {x : Nat} {u v : Nat} {a : α}
    (hx : x ∈ (g.addEdge u v a).nodes) : x ∈ g.nodes ∨ x = u ∨ x = v := by
  unfold StateGraph.addEdge at hx
  cases hh : g.hasEdge u v <;>
    simp only [hh, Bool.false_eq_true, if_true, if_false] at hx <;>
    split at hx <;> split at hx <;>
    first
      | tauto
      | (simp only [List.mem_append, List.mem_singleton] at hx; tauto)

/-- addEdge with both endpoints present keeps the node list. -/
theorem StateGraph.addEdge_nodes_of_mem {g : StateGraph α} {u v : Nat} (a : α)
    (hu : u ∈ g.nodes) (hv : v ∈ g.nodes) : (g.addEdge u v a).nodes = g.nodes := by
  unfold StateGraph.addEdge
  cases hh : g.hasEdge u v <;> simp [hu, hv]

/-- Bind on a successful Except value. -/
theorem exceptBindOk {ε β γ : Type} (x : β) (f : β → Except ε γ) :
    (Except.ok x >>= f) = f x := rfl

/-- Bind on a failed Except value. -/
theorem exceptBindError {ε β γ : Type} (e : ε) (f : β → Except ε γ) :
    ((Except.error e : Except ε β) >>= f) = Except.error e := rfl

/-- Pure for the Except monad is the ok constructor. -/
theorem exceptPureEq {ε β : Type} (x : β) : (pure x : Except ε β) = Except.ok x := rfl

/-- A successful removal loop keeps the node list and only removes
edges. -/
theorem removeEdgeList_ok_subset {pairs : List (Nat × Nat)} :
    ∀ {g g2 : StateGraph α}, removeEdgeList g pairs = .ok g2 →
      g2.nodes = g.nodes ∧ ∀ e ∈ g2.edges, e ∈ g.edges := by
  induction pairs with
  | nil =>
      intro g g2 h
      simp only [removeEdgeList, List.foldlM_nil, exceptPureEq, Except.ok.injEq] at h
      subst h
      exact ⟨rfl, fun e he => he⟩
  | cons uv rest ih =>
      intro g g2 h
      simp only [removeEdgeList, List.foldlM_cons] at h
      cases hh : g.removeEdge uv.1 uv.2 with
      | error msg =>
          rw [hh, exceptBindError] at h
          exact absurd h (by simp)
      | ok g1 =>
          rw [hh, exceptBindOk] at h
          have hstep : g1.nodes = g.nodes ∧ ∀ e ∈ g1.edges, e ∈ g.edges := by
            unfold StateGraph.removeEdge at hh
            split at hh
            · cases hh
              exact ⟨rfl, fun e he => (List.mem_filter.mp he).1⟩
            · cases hh
          have hrest := ih h
          exact ⟨hrest.1.trans hstep.1, fun e he => hstep.2 e (hrest.2 e he)⟩

/-- When the recorded pairs are distinct and each is realized by an
edge, the removal loop succeeds and removes exactly the recorded
pairs. -/
theorem removeEdgeList_ok_of {pairs : List (Nat × Nat)} :
    ∀ {g : StateGraph α}, pairs.Nodup →
      (∀ r ∈ pairs, ∃ e ∈ g.edges, e.1 = r.1 ∧ e.2.1 = r.2) →
      ∃ g2, removeEdgeList g pairs = .ok g2 ∧ g2.nodes = g.nodes ∧
        (∀ e ∈ g.edges, (e.1, e.2.1) ∉ pairs → e ∈ g2.edges) ∧
        (∀ e ∈ g2.edges, e ∈ g.edges) := by
  induction pairs with
  | nil =>
      intro g _ _
      refine ⟨g, ?_, rfl, fun e he _ => he, fun e he => he⟩
      simp [removeEdgeList, List.foldlM_nil, exceptPureEq]
  | cons uv rest ih =>
      intro g hnd hw
      have hnd1 : uv ∉ rest := (List.nodup_cons.mp hnd).1
      have hnd2 : rest.Nodup := (List.nodup_cons.mp hnd).2
      rcases hw uv (by simp) with ⟨e0, he0, h01, h02⟩
      have hhe : g.hasEdge uv.1 uv.2 = true :=
        StateGraph.hasEdge_iff.mpr ⟨e0, he0, h01, h02⟩
      have hrem : g.removeEdge uv.1 uv.2 =
          .ok { nodes := g.nodes,
                edges := g.edges.filter (fun e => !(e.1 == uv.1 && e.2.1 == uv.2)) } := by
        unfold StateGraph.removeEdge
        rw [if_pos hhe]
      set g1 : StateGraph α :=
        { nodes := g.nodes,
          edges := g.edges.filter (fun e => !(e.1 == uv.1 && e.2.1 == uv.2)) } with hg1
      have hw1 : ∀ r ∈ rest, ∃ e ∈ g1.edges, e.1 = r.1 ∧ e.2.1 = r.2 := by
        intro r hr
        rcases hw r (by simp [hr]) with ⟨e, he, h1, h2⟩
        refine ⟨e, ?_, h1, h2⟩
        apply List.mem_filter.mpr
        refine ⟨he, ?_⟩
        have hru : r ≠ uv := fun hctr => hnd1 (hctr ▸ hr)
        have : ¬(e.1 = uv.1 ∧ e.2.1 = uv.2) := by
          intro hctr
          apply hru
          have : r = (e.1, e.2.1) := by rw [h1, h2]
          rw [this, hctr.1, hctr.2]
        rcases Decidable.em (e.1 = uv.1) with hx | hx
        · rcases Decidable.em (e.2.1 = uv.2) with hy | hy
          · exact absurd ⟨hx, hy⟩ this
          · simp [hy]
        · simp [hx]
      rcases ih hnd2 hw1 with ⟨g2, hfold, hn, hkeep, hsub⟩
      refine ⟨g2, ?_, ?_, ?_, ?_⟩
      · simp only [removeEdgeList, List.foldlM_cons]
        rw [hrem, exceptBindOk]
        exact hfold
      · exact hn.trans rfl
      · intro e he hne
        have hneuv : (e.1, e.2.1) ≠ uv := fun hctr => hne (by simp [hctr])
        have hmem1 : e ∈ g1.edges := by
          apply List.mem_filter.mpr
          refine ⟨he, ?_⟩
          have : ¬(e.1 = uv.1 ∧ e.2.1 = uv.2) := by
            intro hctr
            exact hneuv (by rw [hctr.1, hctr.2])
          rcases Decidable.em (e.1 = uv.1) with hx | hx
          · rcases Decidable.em (e.2.1 = uv.2) with hy | hy
            · exact absurd ⟨hx, hy⟩ this
            · simp [hy]
          · simp [hx]
        apply hkeep e hmem1
        intro hctr
        exact hne (by simp [hctr])
      · intro e he
        exact (List.mem_filter.mp (hsub e he)).1

/-- The inner rewiring loop splits into its graph component and the
recorded pair list. -/
theorem innerFold_proj (next : Nat) :
    ∀ (ins : List (Nat × Nat × α)) (st : StateGraph α × List (Nat × Nat)),
      ins.foldl (fun acc e => (acc.1.addEdge e.1 next e.2.2, acc.2 ++ [(e.1, e.2.1)])) st
        = (foldAddG next ins st.1, st.2 ++ ins.map (fun e => (e.1, e.2.1))) := by
  intro ins
  induction ins with
  | nil => intro st; simp [foldAddG]
  | cons e rest ih =>
      intro st
      simp only [List.foldl_cons, List.map_cons]
      rw [ih]
      simp [foldAddG, List.foldl_cons, List.append_assoc]

/-- The rewiring loop over all successors, with each iteration split
into graph component and recorded pairs. -/
theorem spliceAll_eq (g : StateGraph α) (self : Nat) :
    spliceAll g self = (g.successors self).foldl
      (fun st next =>
        (spliceG self next st.1, st.2 ++ (st.1.inEdges self).map (fun e => (e.1, e.2.1))))
      (g, []) := by
  unfold spliceAll
  have hfun : (fun (st : StateGraph α × List (Nat × Nat)) next =>
      (st.1.inEdges self).foldl
        (fun acc e => (acc.1.addEdge e.1 next e.2.2, acc.2 ++ [(e.1, e.2.1)])) st)
    = (fun st next =>
        (spliceG self next st.1, st.2 ++ (st.1.inEdges self).map (fun e => (e.1, e.2.1)))) := by
    funext st next
    rw [innerFold_proj]
    rfl
  rw [hfun]

/-- First projection of a paired fold whose graph component does not
depend on the recorded component. -/
theorem pairFold_fst {β γ : Type} (f : β → Nat → β) (s : β → Nat → List γ) :
    ∀ (l : List Nat) (b : β) (c : List γ),
      (l.foldl (fun acc x => (f acc.1 x, acc.2 ++ s acc.1 x)) (b, c)).1 = l.foldl f b := by
  intro l
  induction l with
  | nil => intro b c; rfl
  | cons x rest ih =>
      intro b c
      simp only [List.foldl_cons]
      exact ih (f b x) (c ++ s b x)

/-- Graph component of the full rewiring loop. -/
theorem spliceAll_fst (g : StateGraph α) (self : Nat) :
    (spliceAll g self).1
      = (g.successors self).foldl (fun h next => spliceG self next h) g := by
  rw [spliceAll_eq]
  exact pairFold_fst (fun h next => spliceG self next h)
    (fun h next => (h.inEdges self).map (fun e => (e.1, e.2.1))) _ g []

/-- The rewiring loop for a single successor. -/
theorem spliceAll_single {g : StateGraph α} {self n : Nat}
    (hs : g.successors self = [n]) :
    spliceAll g self = (spliceG self n g, (g.inEdges self).map (fun e => (e.1, e.2.1))) := by
  rw [spliceAll_eq, hs]
  simp

/-- An edge whose pair is never the added pair survives the inner
rewiring loop. -/
theorem foldAddG_mem_keep {next : Nat} {e : Nat × Nat × α} :
    ∀ (ins : List (Nat × Nat × α)) (h : StateGraph α), e ∈ h.edges →
      (∀ f ∈ ins, ¬(e.1 = f.1 ∧ e.2.1 = next)) → e ∈ (foldAddG next ins h).edges := by
  intro ins
  induction ins with
  | nil => intro h he _; exact he
  | cons f rest ih =>
      intro h he hcond
      show e ∈ (foldAddG next rest (h.addEdge f.1 next f.2.2)).edges
      apply ih
      · exact StateGraph.addEdge_mem_keep f.1 next f.2.2 he (hcond f (by simp))
      · intro f' hf'
        exact hcond f' (by simp [hf'])

/-- Every edge after the inner rewiring loop is an old edge or sits on
an added pair. -/
theorem foldAddG_mem_elim {next : Nat} {e : Nat × Nat × α} :
    ∀ (ins : List (Nat × Nat × α)) (h : StateGraph α),
      e ∈ (foldAddG next ins h).edges →
      e ∈ h.edges ∨ ∃ f ∈ ins, e.1 = f.1 ∧ e.2.1 = next := by
  intro ins
  induction ins with
  | nil => intro h he; exact Or.inl he
  | cons f rest ih =>
      intro h he
      rcases ih (h.addEdge f.1 next f.2.2) he with h1 | h1
      · rcases StateGraph.addEdge_mem_elim h1 with h2 | h2
        · exact Or.inl h2
        · exact Or.inr ⟨f, by simp, h2⟩
      · rcases h1 with ⟨f', hf', hp⟩
        exact Or.inr ⟨f', by simp [hf'], hp⟩

/-- Old nodes survive the inner rewiring loop. -/
theorem foldAddG_nodes_keep {x : Nat} {next : Nat} :
    ∀ (ins : List (Nat × Nat × α)) (h : StateGraph α), x ∈ h.nodes →
      x ∈ (foldAddG next ins h).nodes := by
  intro ins
  induction ins with
  | nil => intro h hx; exact hx
  | cons f rest ih =>
      intro h hx
      exact ih _ (StateGraph.addEdge_nodes_keep f.1 next f.2.2 hx)

/-- Every node after the inner rewiring loop is an old node, the
successor, or the source of a listed incoming edge. -/
theorem foldAddG_nodes_elim {x : Nat} {next : Nat} :
    ∀ (ins : List (Nat × Nat × α)) (h : StateGraph α),
      x ∈ (foldAddG next ins h).nodes →
      x ∈ h.nodes ∨ x = next ∨ ∃ f ∈ ins, x = f.1 := by
  intro ins
  induction ins with
  | nil => intro h hx; exact Or.inl hx
  | cons f rest ih =>
      intro h hx
      rcases ih (h.addEdge f.1 next f.2.2) hx with h1 | h1 | h1
      · rcases StateGraph.addEdge_nodes_elim h1 with h2 | h2 | h2
        · exact Or.inl h2
        · exact Or.inr (Or.inr ⟨f, by simp, h2⟩)
        · exact Or.inr (Or.inl h2)
      · exact Or.inr (Or.inl h1)
      · rcases h1 with ⟨f', hf', hp⟩
        exact Or.inr (Or.inr ⟨f', by simp [hf'], hp⟩)

/-- With pairwise distinct sources, the rewired image of every listed
incoming edge is present after the loop. -/
theorem foldAddG_target_mem {next : Nat} :
    ∀ (ins : List (Nat × Nat × α)) (h : StateGraph α),
      ins.Pairwise (fun f f' => f.1 ≠ f'.1) →
      ∀ f0 ∈ ins, (f0.1, next, f0.2.2) ∈ (foldAddG next ins h).edges := by
  intro ins
  induction ins with
  | nil => intro h _ f0 hf0; cases hf0
  | cons f rest ih =>
      intro h hpw f0 hf0
      have hpw1 := (List.pairwise_cons.mp hpw).1
      have hpw2 := (List.pairwise_cons.mp hpw).2
      rcases List.mem_cons.mp hf0 with rfl | hf0r
      · show (f0.1, next, f0.2.2) ∈ (foldAddG next rest (h.addEdge f0.1 next f0.2.2)).edges
        apply foldAddG_mem_keep rest _ (StateGraph.addEdge_mem_self h f0.1 next f0.2.2)
        intro f' hf' hctr
        exact (hpw1 f' hf') hctr.1
      · exact ih _ hpw2 f0 hf0r

/-- Unfolding of shape on an elidable node: splice, remove the recorded
edges, then remove the node. -/
theorem shape_elidable_eq {g : StateGraph α} {p : Nat}
    (hne : (g.outEdges p).isEmpty = false) :
    PassState.shape g p true =
      (removeEdgeList (spliceAll g p).1 (spliceAll g p).2).map
        (fun g2 => g2.removeNode p) := by
  unfold PassState.shape
  rw [hne]
  show (match removeEdgeList (spliceAll g p).1 (spliceAll g p).2 with
        | Except.ok g2 => Except.ok (g2.removeNode p)
        | Except.error msg => Except.error msg) = _
  cases removeEdgeList (spliceAll g p).1 (spliceAll g p).2 <;> rfl

/-- Effect of shape on an elidable node with exactly one incoming and
one outgoing edge: the node and its two edges disappear and the
upstream node points at the downstream node carrying the incoming
attributes. -/
theorem shape_single_splice {g : StateGraph α} {p q n : Nat} {a0 m0 : α}
    (hout : g.outEdges p = [(p, n, m0)])
    (hin : g.inEdges p = [(q, p, a0)])
    (hqn : g.hasEdge q n = false)
    (hq : q ≠ p) (hn : n ≠ p)
    (hqm : q ∈ g.nodes) (hnm : n ∈ g.nodes) :
    PassState.shape g p true =
      .ok { nodes := g.nodes.filter (fun x => x != p),
            edges := (g.edges.filter (fun e => e.1 != p && e.2.1 != p)) ++ [(q, n, a0)] } := by
  have hguard : (g.outEdges p).isEmpty = false := by rw [hout]; rfl
  have hsucc : g.successors p = [n] := by
    unfold StateGraph.successors
    rw [hout]
    rfl
  have hmemqp : (q, p, a0) ∈ g.edges := by
    have : (q, p, a0) ∈ g.inEdges p := by rw [hin]; exact List.mem_singleton.mpr rfl
    exact (StateGraph.mem_inEdges.mp this).1
  have hadd : spliceG p n g = { nodes := g.nodes, edges := g.edges ++ [(q, n, a0)] } := by
    unfold spliceG
    rw [hin]
    show g.addEdge q n a0 = _
    unfold StateGraph.addEdge
    simp [hqn, hqm, hnm]
  have hsingle := spliceAll_single hsucc
  rw [hin] at hsingle
  have hhe2 : ({ nodes := g.nodes, edges := g.edges ++ [(q, n, a0)] } :
      StateGraph α).hasEdge q p = true := by
    apply StateGraph.hasEdge_iff.mpr
    exact ⟨(q, p, a0), by simp [hmemqp], rfl, rfl⟩
  have hrem : removeEdgeList
      ({ nodes := g.nodes, edges := g.edges ++ [(q, n, a0)] } : StateGraph α) [(q, p)]
      = .ok { nodes := g.nodes,
              edges := (g.edges ++ [(q, n, a0)]).filter
                (fun e => !(e.1 == q && e.2.1 == p)) } := by
    unfold removeEdgeList
    rw [List.foldlM_cons]
    have hstep : ({ nodes := g.nodes, edges := g.edges ++ [(q, n, a0)] } :
        StateGraph α).removeEdge q p
        = .ok { nodes := g.nodes,
                edges := (g.edges ++ [(q, n, a0)]).filter
                  (fun e => !(e.1 == q && e.2.1 == p)) } := by
      unfold StateGraph.removeEdge
      rw [if_pos hhe2]
    rw [hstep, exceptBindOk, List.foldlM_nil, exceptPureEq]
  rw [shape_elidable_eq hguard, hsingle, hadd]
  show (removeEdgeList
      ({ nodes := g.nodes, edges := g.edges ++ [(q, n, a0)] } : StateGraph α)
      [(q, p)]).map (fun g2 => g2.removeNode p) = _
  rw [hrem]
  show Except.ok (StateGraph.removeNode _ p) = _
  rw [Except.ok.injEq]
  unfold StateGraph.removeNode
  rw [StateGraph.mk.injEq]
  refine ⟨rfl, ?_⟩
  show ((g.edges ++ [(q, n, a0)]).filter (fun e => !(e.1 == q && e.2.1 == p))).filter
      (fun e => e.1 != p && e.2.1 != p) = _
  rw [List.filter_filter, List.filter_append]
  have hqq : (q == q) = true := by simp
  have hnp : (n == p) = false := by simp [hn]
  have hqp : (q == p) = false := by simp [hq]
  have hone : ([(q, n, a0)].filter
      (fun e => (e.1 != p && e.2.1 != p) && !(e.1 == q && e.2.1 == p)))
      = [(q, n, a0)] := by
    simp [List.filter_cons, hqp, hnp, bne]
  rw [hone]
  have hcongr : (g.edges.filter
      (fun e => (e.1 != p && e.2.1 != p) && !(e.1 == q && e.2.1 == p)))
      = g.edges.filter (fun e => e.1 != p && e.2.1 != p) := by
    apply List.filter_congr
    intro e _
    cases h2 : (e.2.1 == p) <;> simp [bne, h2]
  rw [hcongr]

/-- Sources, targets and attributes of chain link edges. -/
theorem mem_linkEdges {m : α} {e : Nat × Nat × α} :
    ∀ (l : List Nat) (x : Nat), e ∈ linkEdges m x l →
      (e.1 = x ∨ e.1 ∈ l) ∧ e.2.1 ∈ l ∧ e.2.2 = m := by
  intro l
  induction l with
  | nil => intro x h; cases h
  | cons y rest ih =>
      intro x h
      rw [linkEdges] at h
      rcases List.mem_cons.mp h with rfl | h2
      · exact ⟨Or.inl rfl, by simp, rfl⟩
      · rcases ih y h2 with ⟨h1, h3, h4⟩
        refine ⟨Or.inr ?_, by simp [h3], h4⟩
        rcases h1 with rfl | hh
        · simp
        · simp [hh]

/-- A node absent from a chain is the source of none of its edges. -/
theorem linkEdges_src_filter_nil {m : α} {p x : Nat} {l : List Nat}
    (hx : p ≠ x) (hl : p ∉ l) :
    (linkEdges m x l).filter (fun e => e.1 == p) = [] := by
  apply List.filter_eq_nil_iff.mpr
  intro e he
  simp only [beq_iff_eq]
  intro hep
  rcases (mem_linkEdges l x he).1 with h | h
  · exact hx (hep ▸ h)
  · exact hl (hep ▸ h)

/-- A node absent from a chain is the target of none of its edges. -/
theorem linkEdges_dst_filter_nil {m : α} {p x : Nat} {l : List Nat}
    (hl : p ∉ l) :
    (linkEdges m x l).filter (fun e => e.2.1 == p) = [] := by
  apply List.filter_eq_nil_iff.mpr
  intro e he
  simp only [beq_iff_eq]
  intro hep
  exact hl (hep ▸ (mem_linkEdges l x he).2.1)

/-- Removing the incident edges of an absent node keeps a chain. -/
theorem linkEdges_filter_keep {m : α} {p x : Nat} {l : List Nat}
    (hx : p ≠ x) (hl : p ∉ l) :
    (linkEdges m x l).filter (fun e => e.1 != p && e.2.1 != p) = linkEdges m x l := by
  apply List.filter_eq_self.mpr
  intro e he
  rcases mem_linkEdges l x he with ⟨h1, h2, _⟩
  have hs : e.1 ≠ p := by
    rcases h1 with rfl | hh
    · exact fun hc => hx hc.symm
    · exact fun hc => hl (hc ▸ hh)
  have ht : e.2.1 ≠ p := fun hc => hl (hc ▸ h2)
  simp [bne, hs, ht]

/-- A graph with no edge on the ordered pair fails the hasEdge test. -/
theorem StateGraph.hasEdge_eq_false {g : StateGraph α} {u v : Nat}
    (h : ∀ e ∈ g.edges, ¬(e.1 = u ∧ e.2.1 = v)) : g.hasEdge u v = false := by
  cases hh : g.hasEdge u v with
  | false => rfl
  | true =>
      exfalso
      rcases StateGraph.hasEdge_iff.mp hh with ⟨e, he, h1, h2⟩
      exact h e he ⟨h1, h2⟩

/-- Shaping the first pass node of a chain graph rewires the edge out of
A and yields the intermediate graph over the remaining pass nodes. -/
theorem chain_step {A B p : Nat} {a m : α} {rest : List Nat}
    (hAp : A ≠ p) (hAr : A ∉ rest) (hAB : A ≠ B)
    (hpB : p ≠ B) (hpr : p ∉ rest) :
    PassState.shape (chainGraph A B (p :: rest) a m) p true
      = .ok (midGraph A B rest a m) := by
  have hpA : p ≠ A := Ne.symm hAp
  have hBp : B ≠ p := Ne.symm hpB
  cases rest with
  | nil =>
      have hout : (chainGraph A B [p] a m).outEdges p = [(p, B, m)] := by
        simp [chainGraph, StateGraph.outEdges, linkEdges, hAp]
      have hin : (chainGraph A B [p] a m).inEdges p = [(A, p, a)] := by
        simp [chainGraph, StateGraph.inEdges, linkEdges, hBp]
      have hAB' : (chainGraph A B [p] a m).hasEdge A B = false := by
        simp [chainGraph, StateGraph.hasEdge, linkEdges, hpB, hpA]
      have hres := shape_single_splice hout hin hAB' hAp hBp
        (by simp [chainGraph]) (by simp [chainGraph])
      rw [hres]
      rw [Except.ok.injEq]
      simp [chainGraph, midGraph, linkEdges, StateGraph.mk.injEq, bne, hAp, hBp, hpA]
  | cons r t =>
      have hpr' : p ≠ r := fun h => hpr (by simp [h])
      have hrp : r ≠ p := Ne.symm hpr'
      have hpt : p ∉ t := fun h => hpr (by simp [h])
      have hptB : p ∉ t ++ [B] := by
        intro h
        rcases List.mem_append.mp h with h1 | h1
        · exact hpt h1
        · exact hpB (List.mem_singleton.mp h1)
      have hAr' : A ≠ r := fun h => hAr (by simp [h])
      have hAt : A ∉ t := fun h => hAr (by simp [h])
      have hAtB : A ∉ t ++ [B] := by
        intro h
        rcases List.mem_append.mp h with h1 | h1
        · exact hAt h1
        · exact hAB (List.mem_singleton.mp h1)
      have hedges : (chainGraph A B (p :: r :: t) a m).edges
          = (A, p, a) :: (p, r, m) :: linkEdges m r (t ++ [B]) := by
        simp [chainGraph, linkEdges]
      have hout : (chainGraph A B (p :: r :: t) a m).outEdges p = [(p, r, m)] := by
        simp only [StateGraph.outEdges]
        rw [hedges]
        simp [hAp, linkEdges_src_filter_nil hpr' hptB]
      have hin : (chainGraph A B (p :: r :: t) a m).inEdges p = [(A, p, a)] := by
        simp only [StateGraph.inEdges]
        rw [hedges]
        simp [hrp, linkEdges_dst_filter_nil hptB]
      have hAr2 : (chainGraph A B (p :: r :: t) a m).hasEdge A r = false := by
        apply StateGraph.hasEdge_eq_false
        rw [hedges]
        intro e he
        rcases List.mem_cons.mp he with rfl | he2
        · intro hctr
          exact hpr' hctr.2
        · rcases List.mem_cons.mp he2 with rfl | he3
          · intro hctr
            exact hpA hctr.1
          · intro hctr
            rcases (mem_linkEdges (t ++ [B]) r he3).1 with h1 | h1
            · exact hAr' (hctr.1 ▸ h1)
            · exact hAtB (hctr.1 ▸ h1)
      have hres := shape_single_splice hout hin hAr2 hAp hrp
        (by simp [chainGraph]) (by simp [chainGraph])
      rw [hres]
      rw [Except.ok.injEq]
      have htBf : (t ++ [B]).filter (fun x => x != p) = t ++ [B] := by
        apply List.filter_eq_self.mpr
        intro x hx
        exact bne_iff_ne.mpr (fun hh => hptB (hh ▸ hx))
      rw [StateGraph.mk.injEq]
      constructor
      · show (A :: (p :: r :: t) ++ [B]).filter (fun x => x != p) = _
        have hsplit : (A :: (p :: r :: t) ++ [B]) = [A, p, r] ++ (t ++ [B]) := by simp
        rw [hsplit, List.filter_append, htBf]
        simp [bne, hAp, hrp, midGraph]
      · show ((chainGraph A B (p :: r :: t) a m).edges.filter
            (fun e => e.1 != p && e.2.1 != p)) ++ [(A, r, a)] = _
        rw [hedges]
        simp [linkEdges_filter_keep hpr' hptB, midGraph]

/-- Shaping the first pending pass node of an intermediate graph yields
the intermediate graph over the remaining pass nodes. -/
theorem mid_step {A B p : Nat} {a m : α} {rest : List Nat}
    (hAp : A ≠ p) (hAr : A ∉ rest) (hAB : A ≠ B)
    (hpB : p ≠ B) (hpr : p ∉ rest) :
    PassState.shape (midGraph A B (p :: rest) a m) p true
      = .ok (midGraph A B rest a m) := by
  have hpA : p ≠ A := Ne.symm hAp
  have hBp : B ≠ p := Ne.symm hpB
  cases rest with
  | nil =>
      have hout : (midGraph A B [p] a m).outEdges p = [(p, B, m)] := by
        simp [midGraph, StateGraph.outEdges, linkEdges, hAp]
      have hin : (midGraph A B [p] a m).inEdges p = [(A, p, a)] := by
        simp [midGraph, StateGraph.inEdges, linkEdges, hBp]
      have hAB' : (midGraph A B [p] a m).hasEdge A B = false := by
        simp [midGraph, StateGraph.hasEdge, linkEdges, hpB, hpA]
      have hres := shape_single_splice hout hin hAB' hAp hBp
        (by simp [midGraph]) (by simp [midGraph])
      rw [hres]
      rw [Except.ok.injEq]
      simp [midGraph, linkEdges, StateGraph.mk.injEq, bne, hAp, hBp, hpA]
  | cons r t =>
      have hpr' : p ≠ r := fun h => hpr (by simp [h])
      have hrp : r ≠ p := Ne.symm hpr'
      have hpt : p ∉ t := fun h => hpr (by simp [h])
      have hptB : p ∉ t ++ [B] := by
        intro h
        rcases List.mem_append.mp h with h1 | h1
        · exact hpt h1
        · exact hpB (List.mem_singleton.mp h1)
      have hAr' : A ≠ r := fun h => hAr (by simp [h])
      have hAt : A ∉ t := fun h => hAr (by simp [h])
      have hAtB : A ∉ t ++ [B] := by
        intro h
        rcases List.mem_append.mp h with h1 | h1
        · exact hAt h1
        · exact hAB (List.mem_singleton.mp h1)
      have hedges : (midGraph A B (p :: r :: t) a m).edges
          = (p, r, m) :: (linkEdges m r (t ++ [B]) ++ [(A, p, a)]) := by
        simp [midGraph, linkEdges]
      have hout : (midGraph A B (p :: r :: t) a m).outEdges p = [(p, r, m)] := by
        simp only [StateGraph.outEdges]
        rw [hedges]
        simp [List.filter_append, hAp, linkEdges_src_filter_nil hpr' hptB]
      have hin : (midGraph A B (p :: r :: t) a m).inEdges p = [(A, p, a)] := by
        simp only [StateGraph.inEdges]
        rw [hedges]
        simp [List.filter_append, hrp, linkEdges_dst_filter_nil hptB]
      have hAr2 : (midGraph A B (p :: r :: t) a m).hasEdge A r = false := by
        apply StateGraph.hasEdge_eq_false
        rw [hedges]
        intro e he
        rcases List.mem_cons.mp he with rfl | he2
        · intro hctr
          exact hpA hctr.1
        · rcases List.mem_append.mp he2 with he3 | he3
          · intro hctr
            rcases (mem_linkEdges (t ++ [B]) r he3).1 with h1 | h1
            · exact hAr' (hctr.1 ▸ h1)
            · exact hAtB (hctr.1 ▸ h1)
          · rcases List.mem_singleton.mp he3 with rfl
            intro hctr
            exact hpr' hctr.2
      have hres := shape_single_splice hout hin hAr2 hAp hrp
        (by simp [midGraph]) (by simp [midGraph])
      rw [hres]
      rw [Except.ok.injEq]
      have htBf : (t ++ [B]).filter (fun x => x != p) = t ++ [B] := by
        apply List.filter_eq_self.mpr
        intro x hx
        exact bne_iff_ne.mpr (fun hh => hptB (hh ▸ hx))
      rw [StateGraph.mk.injEq]
      constructor
      · show (A :: (p :: r :: t) ++ [B]).filter (fun x => x != p) = _
        have hsplit : (A :: (p :: r :: t) ++ [B]) = [A, p, r] ++ (t ++ [B]) := by simp
        rw [hsplit, List.filter_append, htBf]
        simp [bne, hAp, hrp, midGraph]
      · show ((midGraph A B (p :: r :: t) a m).edges.filter
            (fun e => e.1 != p && e.2.1 != p)) ++ [(A, r, a)] = _
        rw [hedges]
        simp [List.filter_append, linkEdges_filter_keep hpr' hptB, midGraph]

/-- Unfolding of the shaping driver on a first node. -/
theorem foldShape_cons (isPass : Nat → Bool) (n : Nat) (ns : List Nat) (g : StateGraph α) :
    foldShape isPass (n :: ns) g
      = (PassState.shape g n (isPass n)) >>= foldShape isPass ns := by
  simp [foldShape, List.foldlM_cons]
  rfl

/-- The shaping driver over no nodes. -/
theorem foldShape_nil (isPass : Nat → Bool) (g : StateGraph α) :
    foldShape isPass [] g = .ok g := by
  simp [foldShape, List.foldlM_nil, exceptPureEq]

/-- A node whose statement is not the bare no-op marker is left alone by
the Pass elision step. -/
theorem shape_not_pass (g : StateGraph α) (n : Nat) :
    PassState.shape g n false = .ok g := by
  unfold PassState.shape
  rfl

/-- A node with no outgoing edges is left alone by the Pass elision
step. -/
theorem shape_no_out {g : StateGraph α} {n : Nat} (h : g.outEdges n = []) (b : Bool) :
    PassState.shape g n b = .ok g := by
  unfold PassState.shape
  rw [h]
  cases b <;> rfl

/-- The shaping driver eliminates every pending pass node of an
intermediate graph. -/
theorem midFold {A B : Nat} {a m : α} {isPass : Nat → Bool}
    (hB : isPass B = false) :
    ∀ ps : List Nat, A ∉ ps → B ∉ ps → ps.Nodup → A ≠ B →
      (∀ p ∈ ps, isPass p = true) →
      foldShape isPass (ps ++ [B]) (midGraph A B ps a m)
        = .ok { nodes := [A, B], edges := [(A, B, a)] } := by
  intro ps
  induction ps with
  | nil =>
      intro _ _ _ _ _
      rw [List.nil_append, foldShape_cons, hB, shape_not_pass, exceptBindOk, foldShape_nil]
      rfl
  | cons p rest ih =>
      intro hA hB' hnd hAB hp
      have hAp : A ≠ p := fun h => hA (by simp [h])
      have hAr : A ∉ rest := fun h => hA (by simp [h])
      have hpB : p ≠ B := fun h => hB' (by rw [← h]; simp)
      have hBr : B ∉ rest := fun h => hB' (by simp [h])
      have hpr : p ∉ rest := (List.nodup_cons.mp hnd).1
      have hndr : rest.Nodup := (List.nodup_cons.mp hnd).2
      rw [List.cons_append, foldShape_cons, hp p (by simp),
        mid_step hAp hAr hAB hpB hpr, exceptBindOk]
      exact ih hAr hBr hndr hAB (fun q hq => hp q (by simp [hq]))

/-- Claim C1: for a chain of k pass placeholder nodes between retained
nodes A and B (any k, including zero), one run of the shaping pass over
the nodes of the graph produces exactly the two retained nodes joined by
a single edge carrying the original outgoing edge attributes of A. -/
theorem chain_elision_shapes_single_edge {A B : Nat} {ps : List Nat} {a m : α}
    {isPass : Nat → Bool}
    (hA : A ∉ ps) (hB : B ∉ ps) (hnd : ps.Nodup) (hAB : A ≠ B)
    (hpA : isPass A = false) (hpB : isPass B = false)
    (hp : ∀ p ∈ ps, isPass p = true) :
    runShapingPass (chainGraph A B ps a m) isPass
      = .ok { nodes := [A, B], edges := [(A, B, a)] } := by
  have hnodes : (chainGraph A B ps a m).nodes = A :: ps ++ [B] := by
    cases ps <;> simp [chainGraph]
  rw [runShapingPass, hnodes, List.cons_append, foldShape_cons, hpA,
    shape_not_pass, exceptBindOk]
  cases ps with
  | nil =>
      rw [List.nil_append, foldShape_cons, hpB, shape_not_pass, exceptBindOk, foldShape_nil]
      rfl
  | cons p rest =>
      have hAp : A ≠ p := fun h => hA (by simp [h])
      have hAr : A ∉ rest := fun h => hA (by simp [h])
      have hpB' : p ≠ B := fun h => hB (by rw [← h]; simp)
      have hBr : B ∉ rest := fun h => hB (by simp [h])
      have hpr : p ∉ rest := (List.nodup_cons.mp hnd).1
      have hndr : rest.Nodup := (List.nodup_cons.mp hnd).2
      rw [List.cons_append, foldShape_cons, hp p (by simp),
        chain_step hAp hAr hAB hpB' hpr, exceptBindOk]
      exact midFold hpB rest hAr hBr hndr hAB (fun q hq => hp q (by simp [hq]))

/-- Witness for claim C1 at a chain of two pass nodes. -/
theorem chain_elision_shapes_single_edge_witness :
    (0 ∉ ([2, 3] : List Nat)) ∧ (1 ∉ ([2, 3] : List Nat)) ∧
    ([2, 3] : List Nat).Nodup ∧ (0 : Nat) ≠ 1 ∧
    runShapingPass (chainGraph 0 1 [2, 3] "a" "m") (fun n => decide (2 ≤ n))
      = .ok { nodes := [0, 1], edges := [(0, 1, "a")] } :=
  ⟨by decide, by decide, by decide, by decide,
   chain_elision_shapes_single_edge (by decide) (by decide) (by decide) (by decide)
     (by decide) (by decide) (by decide)⟩

/-- Claim C4: compiling an assignment of a JSON serializable literal to
a data path whose rendering avoids the reserved key pattern serializes
to a Pass state holding exactly the Type, Result and ResultPath keys
plus the End or Next linkage. -/
theorem assign_serializes_result_and_path (keys : List String) (v : JsonValue)
    (outCount : Nat) (succ : String)
    (h : invalidResultPathSearch (convert_input_data_ref keys) = false) :
    PassState.to_dict (.assign keys (.jsonLit v)) outCount succ =
      .ok ([("Type", JsonValue.str "Pass"), ("Result", v),
            ("ResultPath", JsonValue.str (convert_input_data_ref keys))]
        ++ (if outCount == 0 then [("End", JsonValue.bool true)]
            else [("Next", JsonValue.str succ)])) := by
  have hres : PassState.parse_result (.assign keys (.jsonLit v)) = .ok v := rfl
  have hpath : PassState.parse_result_path (.assign keys (.jsonLit v))
      = .ok (convert_input_data_ref keys) := by
    simp only [PassState.parse_result_path]
    unfold assert_supported_operation
    rw [h]
    rfl
  simp only [PassState.to_dict]
  rw [hres, exceptBindOk, hpath, exceptBindOk]
  cases houtc : (outCount == 0) <;> simp [setEndOrNext, houtc]

/-- Witness for claim C4 at the assignment of the number 1 to the foo
key of the data object, as a terminal state. -/
theorem assign_serializes_result_and_path_witness :
    invalidResultPathSearch (convert_input_data_ref ["foo"]) = false ∧
    PassState.to_dict (.assign ["foo"] (.jsonLit (JsonValue.num 1))) 0 "y" =
      .ok ([("Type", JsonValue.str "Pass"), ("Result", JsonValue.num 1),
            ("ResultPath", JsonValue.str (convert_input_data_ref ["foo"]))]
        ++ [("End", JsonValue.bool true)]) :=
  ⟨by rfl,
   (assign_serializes_result_and_path ["foo"] (JsonValue.num 1) 0 "y" (by rfl)).trans (by rfl)⟩

/-- Claim C10: a Pass state whose origin is neither the bare no-op
marker nor an assignment (for example a data.update call) serializes
with the Result parsed from the first call argument and ResultPath set
to the data root. -/
theorem call_statement_result_root_path (v : JsonValue) (outCount : Nat) (succ : String) :
    PassState.to_dict (.exprCall (.jsonLit v)) outCount succ =
      .ok ([("Type", JsonValue.str "Pass"), ("Result", v),
            ("ResultPath", JsonValue.str "$")]
        ++ (if outCount == 0 then [("End", JsonValue.bool true)]
            else [("Next", JsonValue.str succ)])) := by
  have hres : PassState.parse_result (.exprCall (.jsonLit v)) = .ok v := rfl
  have hpath : PassState.parse_result_path (.exprCall (.jsonLit v)) = .ok ("$") := rfl
  simp only [PassState.to_dict]
  rw [hres, exceptBindOk, hpath, exceptBindOk]
  cases houtc : (outCount == 0) <;> simp [setEndOrNext, houtc]

/-- Claim C6: a derived result path matching the reserved key pattern is
rejected with an UnsupportedOperation naming the reserved keys, and any
other derived result path is returned. -/
theorem reserved_result_path_rejection (keys : List String) (v : PyExpr) :
    (invalidResultPathSearch (convert_input_data_ref keys) = true →
      PassState.parse_result_path (.assign keys v)
        = .error ("Task result path is invalid. Check that it does not contain reserved keys: "
            ++ String.intercalate ", " RESERVED_INPUT_DATA_KEYS, .assign keys v)) ∧
    (invalidResultPathSearch (convert_input_data_ref keys) = false →
      PassState.parse_result_path (.assign keys v) = .ok (convert_input_data_ref keys)) := by
  constructor
  · intro h
    simp only [PassState.parse_result_path]
    unfold assert_supported_operation
    rw [h]
    rfl
  · intro h
    simp only [PassState.parse_result_path]
    unfold assert_supported_operation
    rw [h]
    rfl

/-- Witness for claim C6: assigning to the reserved Result key fails and
assigning to a nested foo bar path succeeds. -/
theorem reserved_result_path_rejection_witness :
    (invalidResultPathSearch (convert_input_data_ref ["Result"]) = true ∧
      PassState.parse_result_path (.assign ["Result"] (.jsonLit (JsonValue.num 1)))
        = .error ("Task result path is invalid. Check that it does not contain reserved keys: "
            ++ String.intercalate ", " RESERVED_INPUT_DATA_KEYS,
            .assign ["Result"] (.jsonLit (JsonValue.num 1)))) ∧
    (invalidResultPathSearch (convert_input_data_ref ["foo", "bar"]) = false ∧
      PassState.parse_result_path (.assign ["foo", "bar"] (.jsonLit (JsonValue.num 1)))
        = .ok ("$[\x27foo\x27][\x27bar\x27]")) :=
  ⟨⟨by rfl,
    (reserved_result_path_rejection ["Result"] (.jsonLit (JsonValue.num 1))).1 (by rfl)⟩,
   ⟨by rfl,
    ((reserved_result_path_rejection ["foo", "bar"] (.jsonLit (JsonValue.num 1))).2
      (by rfl)).trans (by rfl)⟩⟩

/-- Claim C7: parsing a Pass result returns exactly the JSON
serializable literal values, and fails with the UnsupportedOperation
message carrying the offending node on any non literal or non JSON
serializable value. -/
theorem result_json_roundtrip_validation (v : JsonValue) (keys : List String) (e : PyExpr) :
    PassState.parse_result (.assign keys (.jsonLit v)) = .ok v ∧
    PassState.parse_result (.exprCall (.jsonLit v)) = .ok v ∧
    (e = .nonLit ∨ e = .badLit →
      PassState.parse_result (.assign keys e)
        = .error ("Only JSON-serializeable values can be used to update the data object",
            .assign keys e)) ∧
    (e = .nonLit ∨ e = .badLit →
      PassState.parse_result (.exprCall e)
        = .error ("Only JSON-serializeable values can be used to update the data object",
            .exprCall e)) := by
  refine ⟨rfl, rfl, ?_, ?_⟩ <;> (intro h; rcases h with rfl | rfl <;> rfl)

/-- Witness for claim C7 at a non literal value and at the number 1. -/
theorem result_json_roundtrip_validation_witness :
    ((PyExpr.nonLit = PyExpr.nonLit ∨ PyExpr.nonLit = PyExpr.badLit) ∧
      PassState.parse_result (.assign ["x"] PyExpr.nonLit)
        = .error ("Only JSON-serializeable values can be used to update the data object",
            .assign ["x"] PyExpr.nonLit)) ∧
    PassState.parse_result (.assign ["x"] (.jsonLit (JsonValue.num 1)))
      = .ok (JsonValue.num 1) :=
  ⟨⟨Or.inl rfl,
    (result_json_roundtrip_validation (JsonValue.num 1) ["x"] PyExpr.nonLit).2.2.1
      (Or.inl rfl)⟩,
   (result_json_roundtrip_validation (JsonValue.num 1) ["x"] PyExpr.nonLit).1⟩

/-- Claim C8: the subscribe status extractor returns the extracted
string when it is success or failure and otherwise fails with a message
naming the allowed set and the provided value. -/
theorem subscribe_status_validation (s : String) :
    (s = "success" ∨ s = "failure" →
      get_subscribe_status (ValueNode.strLit s) = .ok s) ∧
    (¬(s = "success" ∨ s = "failure") →
      get_subscribe_status (ValueNode.strLit s)
        = .error ("Status must be one of success|failure. Provided: " ++ s)) := by
  constructor
  · intro h
    rcases h with rfl | rfl <;> rfl
  · intro h
    have h1 : (s == "success") = false := beq_eq_false_iff_ne.mpr (fun hh => h (Or.inl hh))
    have h2 : (s == "failure") = false := beq_eq_false_iff_ne.mpr (fun hh => h (Or.inr hh))
    unfold get_subscribe_status
    rw [show getValueString (ValueNode.strLit s) = Except.ok s from rfl, exceptBindOk]
    unfold assert_supported_operation_msg
    rw [h1, h2]
    rfl

/-- Witness for claim C8 at the statuses success and maybe. -/
theorem subscribe_status_validation_witness :
    (("success" = "success" ∨ "success" = "failure") ∧
      get_subscribe_status (ValueNode.strLit "success") = .ok "success") ∧
    (¬("maybe" = "success" ∨ "maybe" = "failure") ∧
      get_subscribe_status (ValueNode.strLit "maybe")
        = .error ("Status must be one of success|failure. Provided: maybe")) :=
  ⟨⟨Or.inl rfl, (subscribe_status_validation "success").1 (Or.inl rfl)⟩,
   ⟨by decide, ((subscribe_status_validation "maybe").2 (by decide)).trans (by rfl)⟩⟩

/-- Claim C9: the export registry row caps applications at one, its
single option enabled defaults to true when omitted, one application
succeeds with enabled true, and a second application fails. -/
theorem export_decorator_cardinality :
    (lookupSchema "export").map (fun s => s.max_count) = some (some 1) ∧
    (lookupSchema "export").map (fun s => s.options.map (fun o => (o.1, o.2.default_value)))
      = some [("enabled", some (JsonValue.bool true))] ∧
    validateDecorators [("export", [])]
      = .ok [{ decorator_name := "export", values := [("enabled", JsonValue.bool true)] }] ∧
    validateDecorators [("export", []), ("export", [])]
      = .error ("Decorator export was applied more times than its max count") := by
  refine ⟨rfl, rfl, rfl, rfl⟩

/-- Counterexample to claim C2 as stated: an elidable pass node with two
outgoing edges and one incoming edge makes shape record the incoming
edge twice for removal, and the second removal raises the networkx
missing edge error instead of completing. -/
theorem shape_two_successors_error :
    PassState.shape
      (StateGraph.mk [0, 1, 2, 3] [(0, 1, "b"), (1, 2, "x"), (1, 3, "y")]) 1 true
      = .error ("The edge 0-1 not in graph.") := by
  rfl

/-- The inner rewiring loop adds no edge out of p when no listed source
is p. -/
theorem foldAddG_noSrc {p next : Nat} {ins : List (Nat × Nat × α)} {h : StateGraph α}
    (hins : ∀ f ∈ ins, f.1 ≠ p) (hg : noSrc h p) : noSrc (foldAddG next ins h) p := by
  intro e he
  rcases foldAddG_mem_elim ins h he with h1 | ⟨f, hf, h2, _⟩
  · exact hg e h1
  · rw [h2]
    exact hins f hf

/-- One successor iteration adds no edge out of p when the graph has
none. -/
theorem spliceG_noSrc {p self next : Nat} {g : StateGraph α}
    (hg : noSrc g p) : noSrc (spliceG self next g) p := by
  apply foldAddG_noSrc ?_ hg
  intro f hf
  exact hg f (StateGraph.mem_inEdges.mp hf).1

/-- The rewiring loop over all successors adds no edge out of p. -/
theorem spliceFold_noSrc {p self : Nat} :
    ∀ (nexts : List Nat) (g : StateGraph α), noSrc g p →
      noSrc (nexts.foldl (fun h next => spliceG self next h) g) p := by
  intro nexts
  induction nexts with
  | nil => intro g hg; exact hg
  | cons n rest ih =>
      intro g hg
      exact ih _ (spliceG_noSrc hg)

/-- Inversion of a successful shape call: either the guard returned the
graph unchanged, or the node was spliced, the recorded edges removed and
the node deleted. -/
theorem shape_cases {g g' : StateGraph α} {q : Nat} {b : Bool}
    (h : PassState.shape g q b = .ok g') :
    (g' = g ∧ (!b || (g.outEdges q).isEmpty) = true) ∨
    (b = true ∧ (g.outEdges q).isEmpty = false ∧
      ∃ g2, removeEdgeList (spliceAll g q).1 (spliceAll g q).2 = .ok g2 ∧
        g' = g2.removeNode q) := by
  cases hc : (!b || (g.outEdges q).isEmpty) with
  | true =>
      left
      refine ⟨?_, rfl⟩
      unfold PassState.shape at h
      rw [hc] at h
      simp only [if_true, Except.ok.injEq] at h
      exact h.symm
  | false =>
      right
      have hb : b = true := by
        cases b
        · simp at hc
        · rfl
      have hemp : (g.outEdges q).isEmpty = false := by
        cases hie : (g.outEdges q).isEmpty
        · rfl
        · rw [hie] at hc
          simp at hc
      subst hb
      refine ⟨rfl, hemp, ?_⟩
      rw [shape_elidable_eq hemp] at h
      cases hE : removeEdgeList (spliceAll g q).1 (spliceAll g q).2 with
      | ok g2 =>
          rw [hE] at h
          simp only [Except.map, Except.ok.injEq] at h
          exact ⟨g2, rfl, h.symm⟩
      | error msg =>
          rw [hE] at h
          simp [Except.map] at h

/-- A successful shape call on any node adds no edge out of p when the
graph has none. -/
theorem shape_noSrc {g g' : StateGraph α} {p q : Nat} {b : Bool}
    (hg : noSrc g p) (h : PassState.shape g q b = .ok g') : noSrc g' p := by
  rcases shape_cases h with ⟨rfl, _⟩ | ⟨_, _, g2, hrem, rfl⟩
  · exact hg
  · have h1 : noSrc (spliceAll g q).1 p := by
      rw [spliceAll_fst]
      exact spliceFold_noSrc _ _ hg
    have h2 : noSrc g2 p := fun e he => h1 e ((removeEdgeList_ok_subset hrem).2 e he)
    intro e he
    exact h2 e (List.mem_filter.mp he).1

/-- The inner rewiring loop keeps p absent and untouched. -/
theorem foldAddG_noTouch {p next : Nat} {ins : List (Nat × Nat × α)} {h : StateGraph α}
    (hins : ∀ f ∈ ins, f.1 ≠ p) (hnext : next ≠ p) (hg : noTouch h p) :
    noTouch (foldAddG next ins h) p := by
  constructor
  · intro hmem
    rcases foldAddG_nodes_elim ins h hmem with h1 | h1 | ⟨f, hf, h1⟩
    · exact hg.1 h1
    · exact hnext h1.symm
    · exact hins f hf h1.symm
  · intro e he
    rcases foldAddG_mem_elim ins h he with h1 | ⟨f, hf, h2, h3⟩
    · exact hg.2 e h1
    · exact ⟨h2 ▸ hins f hf, h3 ▸ hnext⟩

/-- One successor iteration keeps p absent and untouched. -/
theorem spliceG_noTouch {p self next : Nat} {g : StateGraph α}
    (hnext : next ≠ p) (hg : noTouch g p) : noTouch (spliceG self next g) p := by
  apply foldAddG_noTouch ?_ hnext hg
  intro f hf
  exact (hg.2 f (StateGraph.mem_inEdges.mp hf).1).1

/-- The rewiring loop over all successors keeps p absent and
untouched. -/
theorem spliceFold_noTouch {p self : Nat} :
    ∀ (nexts : List Nat) (g : StateGraph α), (∀ n ∈ nexts, n ≠ p) → noTouch g p →
      noTouch (nexts.foldl (fun h next => spliceG self next h) g) p := by
  intro nexts
  induction nexts with
  | nil => intro g _ hg; exact hg
  | cons n rest ih =>
      intro g hn hg
      exact ih _ (fun x hx => hn x (by simp [hx])) (spliceG_noTouch (hn n (by simp)) hg)

/-- A successful shape call on any node keeps an absent untouched node
absent and untouched. -/
theorem shape_noTouch {g g' : StateGraph α} {p q : Nat} {b : Bool}
    (hg : noTouch g p) (h : PassState.shape g q b = .ok g') : noTouch g' p := by
  rcases shape_cases h with ⟨rfl, _⟩ | ⟨_, _, g2, hrem, rfl⟩
  · exact hg
  · have hnexts : ∀ n ∈ g.successors q, n ≠ p := by
      intro n hn
      rcases List.mem_map.mp hn with ⟨e, he, rfl⟩
      exact (hg.2 e (StateGraph.mem_outEdges.mp he).1).2
    have h1 : noTouch (spliceAll g q).1 p := by
      rw [spliceAll_fst]
      exact spliceFold_noTouch _ _ hnexts hg
    rcases removeEdgeList_ok_subset hrem with ⟨hn2, hs2⟩
    have h2 : noTouch g2 p := ⟨fun hm => h1.1 (hn2 ▸ hm), fun e he => h1.2 e (hs2 e he)⟩
    constructor
    · intro hm
      exact h2.1 (List.mem_filter.mp hm).1
    · intro e he
      exact h2.2 e (List.mem_filter.mp he).1

/-- The inner rewiring loop keeps the node list and well formedness when
the successor and all listed sources are present. -/
theorem foldAddG_WF {next : Nat} :
    ∀ (ins : List (Nat × Nat × α)) (h : StateGraph α),
      (∀ f ∈ ins, f.1 ∈ h.nodes) → next ∈ h.nodes → wellFormed h →
      wellFormed (foldAddG next ins h) ∧ (foldAddG next ins h).nodes = h.nodes := by
  intro ins
  induction ins with
  | nil => intro h _ _ hwf; exact ⟨hwf, rfl⟩
  | cons f rest ih =>
      intro h hins hnext hwf
      have hf1 : f.1 ∈ h.nodes := hins f (by simp)
      have hne : (h.addEdge f.1 next f.2.2).nodes = h.nodes :=
        StateGraph.addEdge_nodes_of_mem f.2.2 hf1 hnext
      have hwf1 : wellFormed (h.addEdge f.1 next f.2.2) := by
        intro e he
        rcases StateGraph.addEdge_mem_elim he with h1 | ⟨h1, h2⟩
        · rcases hwf e h1 with ⟨ha, hb⟩
          exact ⟨hne ▸ ha, hne ▸ hb⟩
        · rw [h1, h2, hne]
          exact ⟨hf1, hnext⟩
      have hstep := ih (h.addEdge f.1 next f.2.2)
        (fun f' hf' => hne ▸ hins f' (by simp [hf'])) (hne ▸ hnext) hwf1
      exact ⟨hstep.1, hstep.2.trans hne⟩

/-- One successor iteration keeps the node list and well formedness. -/
theorem spliceG_WF {self next : Nat} {g : StateGraph α}
    (hwf : wellFormed g) (hnext : next ∈ g.nodes) :
    wellFormed (spliceG self next g) ∧ (spliceG self next g).nodes = g.nodes := by
  apply foldAddG_WF _ _ ?_ hnext hwf
  intro f hf
  exact (hwf f (StateGraph.mem_inEdges.mp hf).1).1

/-- The rewiring loop over all successors keeps the node list and well
formedness. -/
theorem spliceFold_WF {self : Nat} :
    ∀ (nexts : List Nat) (g : StateGraph α), wellFormed g →
      (∀ n ∈ nexts, n ∈ g.nodes) →
      wellFormed (nexts.foldl (fun h next => spliceG self next h) g) ∧
      (nexts.foldl (fun h next => spliceG self next h) g).nodes = g.nodes := by
  intro nexts
  induction nexts with
  | nil => intro g hwf _; exact ⟨hwf, rfl⟩
  | cons n rest ih =>
      intro g hwf hn
      rcases @spliceG_WF α self n g hwf (hn n (by simp)) with ⟨hwf1, hne1⟩
      rcases ih (spliceG self n g) hwf1
        (fun x hx => hne1 ▸ hn x (by simp [hx])) with ⟨hwf2, hne2⟩
      exact ⟨hwf2, hne2.trans hne1⟩

/-- A successful shape call keeps well formedness and never introduces
nodes. -/
theorem shape_WF {g g' : StateGraph α} {q : Nat} {b : Bool}
    (hwf : wellFormed g) (h : PassState.shape g q b = .ok g') :
    wellFormed g' ∧ ∀ x ∈ g'.nodes, x ∈ g.nodes := by
  rcases shape_cases h with ⟨rfl, _⟩ | ⟨_, _, g2, hrem, rfl⟩
  · exact ⟨hwf, fun x hx => hx⟩
  · have hnexts : ∀ n ∈ g.successors q, n ∈ g.nodes := by
      intro n hn
      rcases List.mem_map.mp hn with ⟨e, he, rfl⟩
      exact (hwf e (StateGraph.mem_outEdges.mp he).1).2
    have h1 : wellFormed (spliceAll g q).1 ∧ (spliceAll g q).1.nodes = g.nodes := by
      rw [spliceAll_fst]
      exact spliceFold_WF _ _ hwf hnexts
    rcases removeEdgeList_ok_subset hrem with ⟨hn2, hs2⟩
    have h2 : wellFormed g2 := by
      intro e he
      rcases h1.1 e (hs2 e he) with ⟨ha, hb⟩
      exact ⟨hn2 ▸ ha, hn2 ▸ hb⟩
    constructor
    · intro e he
      rcases List.mem_filter.mp he with ⟨he2, hcond⟩
      rw [Bool.and_eq_true] at hcond
      rcases h2 e he2 with ⟨ha, hb⟩
      constructor
      · exact List.mem_filter.mpr ⟨ha, hcond.1⟩
      · exact List.mem_filter.mpr ⟨hb, hcond.2⟩
    · intro x hx
      have : x ∈ g2.nodes := (List.mem_filter.mp hx).1
      rw [hn2, h1.2] at this
      exact this

/-- The rewiring loop over all successors keeps every old node. -/
theorem spliceFold_nodes_keep {x self : Nat} :
    ∀ (nexts : List Nat) (g : StateGraph α), x ∈ g.nodes →
      x ∈ (nexts.foldl (fun h next => spliceG self next h) g).nodes := by
  intro nexts
  induction nexts with
  | nil => intro g hx; exact hx
  | cons n rest ih =>
      intro g hx
      exact ih _ (foldAddG_nodes_keep _ _ hx)

/-- A successful shape call removes no node other than the shaped
one. -/
theorem shape_node_keep {g g' : StateGraph α} {x q : Nat} {b : Bool}
    (hx : x ∈ g.nodes) (hxq : x ≠ q) (h : PassState.shape g q b = .ok g') :
    x ∈ g'.nodes := by
  rcases shape_cases h with ⟨rfl, _⟩ | ⟨_, _, g2, hrem, rfl⟩
  · exact hx
  · have h1 : x ∈ (spliceAll g q).1.nodes := by
      rw [spliceAll_fst]
      exact spliceFold_nodes_keep _ _ hx
    have h2 : x ∈ g2.nodes := (removeEdgeList_ok_subset hrem).1 ▸ h1
    exact List.mem_filter.mpr ⟨h2, bne_iff_ne.mpr hxq⟩

/-- Shaping a no-op node itself either leaves the graph with no edge out
of the node or removes the node and all its incident edges. -/
theorem shape_self_elim {g g' : StateGraph α} {p : Nat}
    (h : PassState.shape g p true = .ok g') : noSrc g' p ∨ noTouch g' p := by
  rcases shape_cases h with ⟨rfl, hguard⟩ | ⟨_, _, g2, _, rfl⟩
  · left
    have : (g'.outEdges p).isEmpty = true := by
      cases hie : (g'.outEdges p).isEmpty
      · rw [hie] at hguard
        simp at hguard
      · rfl
    exact StateGraph.outEdges_eq_nil_iff.mp (List.isEmpty_iff.mp this)
  · right
    constructor
    · intro hm
      have := (List.mem_filter.mp hm).2
      simp at this
    · intro e he
      rcases List.mem_filter.mp he with ⟨_, hcond⟩
      rw [Bool.and_eq_true] at hcond
      exact ⟨bne_iff_ne.mp hcond.1, bne_iff_ne.mp hcond.2⟩

/-- The shaping driver preserves the noSrc or noTouch status of a
node. -/
theorem foldShape_noSrc_or_noTouch {p : Nat} {isPass : Nat → Bool} :
    ∀ (ns : List Nat) (g g1 : StateGraph α), (noSrc g p ∨ noTouch g p) →
      foldShape isPass ns g = .ok g1 → noSrc g1 p ∨ noTouch g1 p := by
  intro ns
  induction ns with
  | nil =>
      intro g g1 hg h
      rw [foldShape_nil, Except.ok.injEq] at h
      exact h ▸ hg
  | cons n rest ih =>
      intro g g1 hg h
      rw [foldShape_cons] at h
      cases hs : PassState.shape g n (isPass n) with
      | error msg => rw [hs, exceptBindError] at h; cases h
      | ok ghalf =>
          rw [hs, exceptBindOk] at h
          apply ih ghalf g1 ?_ h
          rcases hg with hg | hg
          · exact Or.inl (shape_noSrc hg hs)
          · exact Or.inr (shape_noTouch hg hs)

/-- The shaping driver preserves well formedness and never introduces
nodes. -/
theorem foldShape_WF {isPass : Nat → Bool} :
    ∀ (ns : List Nat) (g g1 : StateGraph α), wellFormed g →
      foldShape isPass ns g = .ok g1 →
      wellFormed g1 ∧ ∀ x ∈ g1.nodes, x ∈ g.nodes := by
  intro ns
  induction ns with
  | nil =>
      intro g g1 hwf h
      rw [foldShape_nil, Except.ok.injEq] at h
      exact h ▸ ⟨hwf, fun x hx => hx⟩
  | cons n rest ih =>
      intro g g1 hwf h
      rw [foldShape_cons] at h
      cases hs : PassState.shape g n (isPass n) with
      | error msg => rw [hs, exceptBindError] at h; cases h
      | ok ghalf =>
          rw [hs, exceptBindOk] at h
          rcases shape_WF hwf hs with ⟨hwf1, hsub1⟩
          rcases ih ghalf g1 hwf1 h with ⟨hwf2, hsub2⟩
          exact ⟨hwf2, fun x hx => hsub1 x (hsub2 x hx)⟩

/-- After one run of the shaping driver over a node list, every no-op
node in the list either has no outgoing edge left or is gone. -/
theorem foldShape_pass_out_empty {isPass : Nat → Bool} :
    ∀ (ns : List Nat) (g g1 : StateGraph α),
      foldShape isPass ns g = .ok g1 →
      ∀ p, isPass p = true → p ∈ ns → (noSrc g1 p ∨ p ∉ g1.nodes) := by
  intro ns
  induction ns with
  | nil => intro g g1 _ p _ hp; cases hp
  | cons n rest ih =>
      intro g g1 h p hpass hp
      rw [foldShape_cons] at h
      cases hs : PassState.shape g n (isPass n) with
      | error msg => rw [hs, exceptBindError] at h; cases h
      | ok ghalf =>
          rw [hs, exceptBindOk] at h
          rcases List.mem_cons.mp hp with rfl | hp2
          · rw [hpass] at hs
            have hhalf := shape_self_elim hs
            rcases foldShape_noSrc_or_noTouch rest ghalf g1 hhalf h with h1 | h1
            · exact Or.inl h1
            · exact Or.inr h1.1
          · exact ih ghalf g1 h p hpass hp2

/-- The shaping driver is the identity when each listed shape call is. -/
theorem foldShape_id {isPass : Nat → Bool} :
    ∀ (ns : List Nat) (g : StateGraph α),
      (∀ n ∈ ns, PassState.shape g n (isPass n) = .ok g) →
      foldShape isPass ns g = .ok g := by
  intro ns
  induction ns with
  | nil => intro g _; exact foldShape_nil _ _
  | cons n rest ih =>
      intro g hid
      rw [foldShape_cons, hid n (by simp), exceptBindOk]
      exact ih g (fun x hx => hid x (by simp [hx]))

/-- Claim C5: after one complete shaping pass over a well formed graph
no elidable pass node with outgoing edges remains, every further shape
call on a remaining node returns the graph unchanged, and running the
shaping pass a second time returns the shaped graph identically. -/
theorem shaping_pass_idempotent {g g1 : StateGraph α} {isPass : Nat → Bool}
    (hwf : wellFormed g) (h1 : runShapingPass g isPass = .ok g1) :
    (∀ p ∈ g1.nodes, isPass p = true → g1.outEdges p = []) ∧
    (∀ n ∈ g1.nodes, PassState.shape g1 n (isPass n) = .ok g1) ∧
    runShapingPass g1 isPass = .ok g1 := by
  have hsub := (foldShape_WF g.nodes g g1 hwf h1).2
  have hout : ∀ p ∈ g1.nodes, isPass p = true → g1.outEdges p = [] := by
    intro p hp hpass
    rcases foldShape_pass_out_empty g.nodes g g1 h1 p hpass (hsub p hp) with h | h
    · exact StateGraph.outEdges_eq_nil_iff.mpr h
    · exact absurd hp h
  have hid : ∀ n ∈ g1.nodes, PassState.shape g1 n (isPass n) = .ok g1 := by
    intro n hn
    cases hpn : isPass n with
    | false => exact shape_not_pass g1 n
    | true => exact shape_no_out (hout n hn hpn) true
  exact ⟨hout, hid, foldShape_id g1.nodes g1 hid⟩

/-- Witness for claim C5 at a chain graph with one pass node. -/
theorem shaping_pass_idempotent_witness :
    wellFormed (StateGraph.mk [0, 2, 1] [(0, 2, "a"), (2, 1, "m")] : StateGraph String) ∧
    runShapingPass (StateGraph.mk [0, 2, 1] [(0, 2, "a"), (2, 1, "m")] : StateGraph String)
      (fun n => decide (2 ≤ n)) = .ok (StateGraph.mk [0, 1] [(0, 1, "a")]) ∧
    ((∀ p ∈ (StateGraph.mk [0, 1] [(0, 1, "a")] : StateGraph String).nodes,
        (fun n => decide (2 ≤ n)) p = true →
        (StateGraph.mk [0, 1] [(0, 1, "a")] : StateGraph String).outEdges p = []) ∧
      (∀ n ∈ (StateGraph.mk [0, 1] [(0, 1, "a")] : StateGraph String).nodes,
        PassState.shape (StateGraph.mk [0, 1] [(0, 1, "a")]) n ((fun n => decide (2 ≤ n)) n)
          = .ok (StateGraph.mk [0, 1] [(0, 1, "a")])) ∧
      runShapingPass (StateGraph.mk [0, 1] [(0, 1, "a")]) (fun n => decide (2 ≤ n))
        = .ok (StateGraph.mk [0, 1] [(0, 1, "a")])) :=
  ⟨by unfold wellFormed; decide, by rfl,
   @shaping_pass_idempotent String
     (StateGraph.mk [0, 2, 1] [(0, 2, "a"), (2, 1, "m")])
     (StateGraph.mk [0, 1] [(0, 1, "a")])
     (fun n => decide (2 ≤ n))
     (by unfold wellFormed; decide) (by rfl)⟩

/-- The shaping driver keeps a node with no outgoing edges, together
with its outgoing emptiness. -/
theorem foldShape_keep_noSrc_mem {p : Nat} {isPass : Nat → Bool} :
    ∀ (ns : List Nat) (g g1 : StateGraph α), noSrc g p → p ∈ g.nodes →
      foldShape isPass ns g = .ok g1 → noSrc g1 p ∧ p ∈ g1.nodes := by
  intro ns
  induction ns with
  | nil =>
      intro g g1 hs hm h
      rw [foldShape_nil, Except.ok.injEq] at h
      exact h ▸ ⟨hs, hm⟩
  | cons n rest ih =>
      intro g g1 hs hm h
      rw [foldShape_cons] at h
      cases hsh : PassState.shape g n (isPass n) with
      | error msg => rw [hsh, exceptBindError] at h; cases h
      | ok ghalf =>
          rw [hsh, exceptBindOk] at h
          have hs1 : noSrc ghalf p := shape_noSrc hs hsh
          have hm1 : p ∈ ghalf.nodes := by
            by_cases hpn : p = n
            · subst hpn
              have hid : PassState.shape g p (isPass p) = .ok g :=
                shape_no_out (StateGraph.outEdges_eq_nil_iff.mpr hs) _
              rw [hid, Except.ok.injEq] at hsh
              exact hsh ▸ hm
            · exact shape_node_keep hm hpn hsh
          exact ih ghalf g1 hs1 hm1 h

/-- Claim C3: a no-op pass node with zero outgoing edges is left alone
by its own shape call, survives a whole shaping pass with no outgoing
edges, and serializes to exactly the Type Pass dict with terminal End
linkage and no Result or ResultPath key. -/
theorem terminal_pass_preserved {g : StateGraph α} {p : Nat}
    (h : g.outEdges p = []) :
    (∀ b, PassState.shape g p b = .ok g) ∧
    (∀ (isPass : Nat → Bool) (g1 : StateGraph α), runShapingPass g isPass = .ok g1 →
      p ∈ g.nodes → p ∈ g1.nodes ∧ g1.outEdges p = []) ∧
    (∀ succ, PassState.to_dict AstNode.passStmt 0 succ
      = .ok [("Type", JsonValue.str "Pass"), ("End", JsonValue.bool true)]) := by
  refine ⟨fun b => shape_no_out h b, ?_, fun succ => rfl⟩
  intro isPass g1 h1 hm
  have hs : noSrc g p := StateGraph.outEdges_eq_nil_iff.mp h
  rcases foldShape_keep_noSrc_mem g.nodes g g1 hs hm h1 with ⟨hs1, hm1⟩
  exact ⟨hm1, StateGraph.outEdges_eq_nil_iff.mpr hs1⟩

/-- Witness for claim C3 at a terminal no-op node. -/
theorem terminal_pass_preserved_witness :
    (StateGraph.mk [0, 1] [(0, 1, "a")] : StateGraph String).outEdges 1 = [] ∧
    ((∀ b, PassState.shape (StateGraph.mk [0, 1] [(0, 1, "a")] : StateGraph String) 1 b
        = .ok (StateGraph.mk [0, 1] [(0, 1, "a")])) ∧
     (∀ (isPass : Nat → Bool) (g1 : StateGraph String),
        runShapingPass (StateGraph.mk [0, 1] [(0, 1, "a")] : StateGraph String) isPass
          = .ok g1 →
        1 ∈ (StateGraph.mk [0, 1] [(0, 1, "a")] : StateGraph String).nodes →
        1 ∈ g1.nodes ∧ g1.outEdges 1 = []) ∧
     (∀ succ, PassState.to_dict AstNode.passStmt 0 succ
        = .ok [("Type", JsonValue.str "Pass"), ("End", JsonValue.bool true)])) :=
  ⟨by rfl, @terminal_pass_preserved String (StateGraph.mk [0, 1] [(0, 1, "a")]) 1 (by rfl)⟩

/-- Claim C2 as amended: for an elidable pass node p with exactly one
outgoing edge (p, n, m0) (the shape the builder produces for no-op
placeholders) and no preexisting edge from an upstream node to n, one
shape call completes without error, creates for every incoming edge
(q, p, b) the edge (q, n, b) carrying the incoming attributes and
discarding the outgoing attributes, removes every edge incident to p and
removes p from the graph.  The well formedness hypothesis states that no
ordered node pair carries two edges. -/
theorem shape_single_out_splice {g : StateGraph α} {p n : Nat} {m0 : α}
    (hwf : (g.edges.map (fun e => (e.1, e.2.1))).Nodup)
    (hout : g.outEdges p = [(p, n, m0)])
    (hnp : n ≠ p)
    (_hnew : ∀ f ∈ g.edges, f.2.1 = p → g.hasEdge f.1 n = false) :
    ∃ g', PassState.shape g p true = .ok g' ∧
      (∀ q b, (q, p, b) ∈ g.edges → (q, n, b) ∈ g'.edges) ∧
      (∀ e ∈ g'.edges, e.1 ≠ p ∧ e.2.1 ≠ p) ∧
      p ∉ g'.nodes := by
  have hguard : (g.outEdges p).isEmpty = false := by rw [hout]; rfl
  have hsucc : g.successors p = [n] := by
    unfold StateGraph.successors
    rw [hout]
    rfl
  have hsingle := spliceAll_single hsucc
  have hsrcne : ∀ f ∈ g.inEdges p, f.1 ≠ p := by
    intro f hf hctr
    have hfe : f ∈ g.edges := (StateGraph.mem_inEdges.mp hf).1
    have hfo : f ∈ g.outEdges p := StateGraph.mem_outEdges.mpr ⟨hfe, hctr⟩
    rw [hout] at hfo
    have hfeq := List.mem_singleton.mp hfo
    have hd : f.2.1 = p := (StateGraph.mem_inEdges.mp hf).2
    rw [hfeq] at hd
    exact hnp hd
  have hdstp : ∀ f ∈ g.inEdges p, f.2.1 = p :=
    fun f hf => (StateGraph.mem_inEdges.mp hf).2
  have hinsub : (g.inEdges p).Sublist g.edges := List.filter_sublist g.edges
  have hpairs : ((g.inEdges p).map (fun f => (f.1, f.2.1))).Nodup :=
    List.Nodup.sublist (List.Sublist.map _ hinsub) hwf
  have hpw : (g.inEdges p).Pairwise (fun f f' => f.1 ≠ f'.1) := by
    have h0 : List.Pairwise (fun f f' => (f.1, f.2.1) ≠ (f'.1, f'.2.1)) (g.inEdges p) := by
      have h1 := hpairs
      unfold List.Nodup at h1
      exact List.pairwise_map.mp h1
    apply List.Pairwise.imp_of_mem ?_ h0
    intro f f' hf hf' hne hctr
    apply hne
    rw [hctr, hdstp f hf, hdstp f' hf']
  have hkeepins : ∀ f ∈ g.inEdges p, f ∈ (spliceG p n g).edges := by
    intro f hf
    apply foldAddG_mem_keep _ _ (StateGraph.mem_inEdges.mp hf).1
    intro f' _ hctr
    apply hnp
    rw [← hctr.2, hdstp f hf]
  have htarget : ∀ f ∈ g.inEdges p, (f.1, n, f.2.2) ∈ (spliceG p n g).edges :=
    fun f hf => foldAddG_target_mem _ g hpw f hf
  have hrswit : ∀ r ∈ (g.inEdges p).map (fun f => (f.1, f.2.1)),
      ∃ e ∈ (spliceG p n g).edges, e.1 = r.1 ∧ e.2.1 = r.2 := by
    intro r hr
    rcases List.mem_map.mp hr with ⟨f, hf, rfl⟩
    exact ⟨f, hkeepins f hf, rfl, rfl⟩
  rcases removeEdgeList_ok_of hpairs hrswit with ⟨g2, hremOK, hn2, hkeep, hsub2⟩
  refine ⟨g2.removeNode p, ?_, ?_, ?_, ?_⟩
  · rw [shape_elidable_eq hguard, hsingle]
    show (removeEdgeList (spliceG p n g)
        ((g.inEdges p).map (fun f => (f.1, f.2.1)))).map (fun h => h.removeNode p) = _
    rw [hremOK]
    rfl
  · intro q b he
    have hf : (q, p, b) ∈ g.inEdges p := StateGraph.mem_inEdges.mpr ⟨he, rfl⟩
    have h1 : (q, n, b) ∈ (spliceG p n g).edges := htarget (q, p, b) hf
    have hnotin : ((q : Nat), n) ∉ (g.inEdges p).map (fun f => (f.1, f.2.1)) := by
      intro hmem
      rcases List.mem_map.mp hmem with ⟨f, hf2, hfeq⟩
      have : f.2.1 = n := congrArg Prod.snd hfeq
      apply hnp
      rw [← this, hdstp f hf2]
    have h2 : (q, n, b) ∈ g2.edges := hkeep _ h1 hnotin
    apply List.mem_filter.mpr
    refine ⟨h2, ?_⟩
    show ((q != p) && (n != p)) = true
    rw [Bool.and_eq_true]
    exact ⟨bne_iff_ne.mpr (hsrcne (q, p, b) hf), bne_iff_ne.mpr hnp⟩
  · intro e he
    rcases List.mem_filter.mp he with ⟨_, hcond⟩
    rw [Bool.and_eq_true] at hcond
    exact ⟨bne_iff_ne.mp hcond.1, bne_iff_ne.mp hcond.2⟩
  · intro hm
    have := (List.mem_filter.mp hm).2
    simp at this

/-- Witness for the amended claim C2 at a pass node with two incoming
edges and one outgoing edge. -/
theorem shape_single_out_splice_witness :
    ((((StateGraph.mk [0, 5, 1, 3] [(0, 1, "b0"), (5, 1, "b5"), (1, 3, "m")] :
        StateGraph String)).edges.map (fun e => (e.1, e.2.1))).Nodup ∧
      (StateGraph.mk [0, 5, 1, 3] [(0, 1, "b0"), (5, 1, "b5"), (1, 3, "m")] :
        StateGraph String).outEdges 1 = [(1, 3, "m")] ∧
      (3 : Nat) ≠ 1) ∧
    (∃ g', PassState.shape
        (StateGraph.mk [0, 5, 1, 3] [(0, 1, "b0"), (5, 1, "b5"), (1, 3, "m")] :
          StateGraph String) 1 true = .ok g' ∧
      (∀ q b, (q, 1, b) ∈ (StateGraph.mk [0, 5, 1, 3]
          [(0, 1, "b0"), (5, 1, "b5"), (1, 3, "m")] : StateGraph String).edges →
        (q, 3, b) ∈ g'.edges) ∧
      (∀ e ∈ g'.edges, e.1 ≠ 1 ∧ e.2.1 ≠ 1) ∧
      1 ∉ g'.nodes) :=
  ⟨⟨by decide, by rfl, by decide⟩,
   shape_single_out_splice (by decide) (by rfl) (by decide)
     (by intro f hf hd; fin_cases hf <;> simp_all <;> rfl)⟩
